import Mathlib

/-!
Verification of the ring-settlement simulator (`ring.ts`, `balance_book.ts` /
`protocol_simulator.ts`).

Shallow embedding conventions:
* `BigNumber` values are modelled as `Int`; `dividedToIntegerBy` truncates
  toward zero and is modelled by `Int.tdiv`.
* The awaited chain reads (`getSpendableS`, `getSpendableFee`, ERC1400
  `canSend`) are modelled as oracle parameters: functions supplying the value
  each `await` returns.  The theorems quantify over all oracles.
* `OrderUtil`'s helpers called from the given sources (`reserveAmountS`,
  `reserveAmountFee`, `resetReservations`, `validateAllOrNone`) live in
  `order.ts`, which is not part of the given sources; they are modelled from
  the spec (see their doc comments).
* `assert(...)` calls are checks that abort a run but never change computed
  values; they are recorded in comments at the corresponding places.

The file is laid out with all definitions first and all theorems second.
-/

/-- Token kinds, from `types.ts` (`TokenType.ERC20`, `TokenType.ERC1400`). -/
inductive TokenType where
  | ERC20 : TokenType
  | ERC1400 : TokenType
deriving DecidableEq, Inhabited

/-- A cached spendable record (`types.ts` `Spendable`), as used by
`adjustOrderState` / `revertOrderStats` and the reservation helpers. -/
structure Spendable where
  initialized : Bool := false
  amount : Int := 0
  reserved : Int := 0
  initialAmount : Int := 0
deriving DecidableEq, Inhabited

/-- The fields of `OrderInfo` (`types.ts`) that the settlement code reads or
writes.  Amount fields are `Int` (arbitrary-precision, as `BigNumber`). -/
structure OrderInfo where
  owner : String := ""
  tokenRecipient : String := ""
  tokenS : String := ""
  tokenB : String := ""
  feeToken : String := ""
  amountS : Int := 0
  amountB : Int := 0
  feeAmount : Int := 0
  trancheS : String := ""
  trancheB : String := ""
  trancheFee : String := ""
  tokenTypeS : TokenType := TokenType.ERC20
  tokenTypeB : TokenType := TokenType.ERC20
  tokenTypeFee : TokenType := TokenType.ERC20
  transferDataS : Option String := none
  allOrNone : Bool := false
  P2P : Bool := false
  feePercentage : Int := 0
  tokenSFeePercentage : Int := 0
  tokenBFeePercentage : Int := 0
  walletSplitPercentage : Int := 0
  waiveFeePercentage : Int := 0
  walletAddr : Option String := none
  brokerInterceptor : Option String := none
  valid : Bool := true
  filledAmountS : Int := 0
  tokenSpendableS : Spendable := {}
  tokenSpendableFee : Spendable := {}
  brokerSpendableS : Spendable := {}
  brokerSpendableFee : Spendable := {}
deriving DecidableEq, Inhabited

/-- A `Participation` (`types.ts`): the per-order slot of a ring.  The order
record is embedded by value; within a single ring call no two participations
alias the same order (`checkForSubRings` forbids a duplicated `tokenS`). -/
structure Participation where
  order : OrderInfo
  splitS : Int := 0
  feeAmount : Int := 0
  feeAmountS : Int := 0
  feeAmountB : Int := 0
  rebateFee : Int := 0
  rebateS : Int := 0
  rebateB : Int := 0
  fillAmountS : Int := 0
  fillAmountB : Int := 0
  ringSpendableS : Int := 0
  ringSpendableFee : Int := 0
deriving DecidableEq, Inhabited

/-- The mutable state of a `Ring` object that `ring.ts` operates on. -/
structure RingState where
  parts : List Participation
  valid : Bool
  minerFeesToOrdersPercentage : Int
deriving DecidableEq, Inhabited

/-- The result of an ERC1400 `canSend` probe: the status code `ESC` and the
destination tranche (the middle component of the triple is unused). -/
def CanSendFn : Type :=
  String → String → String → Int → String → String × String

/-- Cyclic predecessor index: `(i + n - 1) % n`, as used throughout
`ring.ts`. -/
def prevIdx (n i : Nat) : Nat := (i + n - 1) % n

namespace Ring

/-- `Ring` constructor (ring.ts lines 42-58): each order is wrapped in a
participation with every amount initialized to zero. -/
def mkParticipation (order : OrderInfo) : Participation :=
  { order := order
    splitS := 0
    feeAmount := 0
    feeAmountS := 0
    feeAmountB := 0
    rebateFee := 0
    rebateS := 0
    rebateB := 0
    fillAmountS := 0
    fillAmountB := 0
    ringSpendableS := 0
    ringSpendableFee := 0 }

/-- `Ring` constructor (ring.ts lines 35-58): `valid = true`,
`minerFeesToOrdersPercentage = 0`, participations built from the orders. -/
def new (orders : List OrderInfo) : RingState :=
  { parts := orders.map mkParticipation
    valid := true
    minerFeesToOrdersPercentage := 0 }

/-- `Ring.checkOrdersValid` (ring.ts lines 120-133): ring size in `[2,8]`,
every order valid, and `tokenS`/`tokenB` plus the token types match around
the cycle.  Only the `valid` flag is written. -/
def checkOrdersValid (st : RingState) : RingState :=
  let n := st.parts.length
  let v0 := st.valid && decide (1 < n ∧ n ≤ 8)
  let v := (List.range n).foldl
    (fun v i =>
      let p := st.parts.getD i default
      let q := st.parts.getD (prevIdx n i) default
      v && p.order.valid && decide (p.order.tokenS = q.order.tokenB)
        && decide (p.order.tokenTypeS = q.order.tokenTypeB))
    v0
  { st with valid := v }

/-- `Ring.checkForSubRings` (ring.ts lines 135-142): no two orders of the
ring may share `tokenS`. -/
def checkForSubRings (st : RingState) : RingState :=
  let n := st.parts.length
  let v := (List.range n).foldl
    (fun v i =>
      ((List.range n).filter (fun j => i < j)).foldl
        (fun v j =>
          v && decide ((st.parts.getD i default).order.tokenS
                        ≠ (st.parts.getD j default).order.tokenS))
        v)
    st.valid
  { st with valid := v }

/-- Modelled from the spec: `OrderUtil.reserveAmountFee` (order.ts, not in
the given sources) adds the reserved amount to the order's fee spendable
("`reserveAmountS(order, amount)` / `reserveAmountFee` / `resetReservations`:
add/clear `reserved` on the Spendables"). -/
def reserveAmountFee (p : Participation) (amt : Int) : Participation :=
  { p with order := { p.order with
      tokenSpendableFee := { p.order.tokenSpendableFee with
        reserved := p.order.tokenSpendableFee.reserved + amt } } }

/-- Modelled from the spec: `OrderUtil.reserveAmountS` (order.ts, not in the
given sources) adds the reserved amount to the order's tokenS spendable.  In
`calculateFillAmountAndFee` it is called with `p.fillAmountS`. -/
def reserveAmountS (p : Participation) : Participation :=
  { p with order := { p.order with
      tokenSpendableS := { p.order.tokenSpendableS with
        reserved := p.order.tokenSpendableS.reserved + p.fillAmountS } } }

/-- Modelled from the spec: `OrderUtil.resetReservations` (order.ts, not in
the given sources) clears the `reserved` counters of both spendables. -/
def resetReservations (p : Participation) : Participation :=
  { p with order := { p.order with
      tokenSpendableS := { p.order.tokenSpendableS with reserved := 0 }
      tokenSpendableFee := { p.order.tokenSpendableFee with reserved := 0 } } }

/-- `Ring.setMaxFillAmounts` (ring.ts lines 205-236).  `spendS` is the value
returned by the awaited `getSpendableS(p.order)`, `spendFee` the value
returned by `getSpendableFee(p.order)` (queried only on the fee-limited
paths).  In the `feeToken == tokenS` branch the source asserts
`spendableFee == ringSpendableS`; the assertion aborts a run but computes
nothing. -/
def setMaxFillAmounts (spendS spendFee : Int) (p : Participation) :
    Participation :=
  let remainingS := p.order.amountS - p.order.filledAmountS
  let p := { p with ringSpendableS := spendS }
  let fillAmountS := min spendS remainingS
  let fillAmountS :=
    if p.order.P2P then fillAmountS
    else if p.order.feeToken = p.order.tokenB
            ∧ p.order.owner = p.order.tokenRecipient
            ∧ p.order.feeAmount ≤ p.order.amountB then fillAmountS
    else
      let feeAmount := (p.order.feeAmount * fillAmountS).tdiv p.order.amountS
      if 0 < feeAmount then
        if p.order.feeToken = p.order.tokenS
            ∧ spendS < fillAmountS + feeAmount then
          -- assert(spendableFee.eq(p.ringSpendableS))
          let totalAmount := p.order.amountS + p.order.feeAmount
          (spendS * p.order.amountS).tdiv totalAmount
        else if spendFee < feeAmount then
          (spendFee * p.order.amountS).tdiv p.order.feeAmount
        else fillAmountS
      else fillAmountS
  { p with
      fillAmountS := fillAmountS
      fillAmountB := (fillAmountS * p.order.amountB).tdiv p.order.amountS }

/-- The tail of `Ring.calculateFees` (ring.ts lines 270-278): the margin
check.  On success the margin `splitS` is split off and `fillAmountS` is
tightened onto `prevP.fillAmountB + feeAmountS`. -/
def marginCheck (p prevP : Participation) : Bool × Participation :=
  if prevP.fillAmountB ≤ p.fillAmountS - p.feeAmountS then
    (true,
      { p with
          splitS := p.fillAmountS - p.feeAmountS - prevP.fillAmountB
          fillAmountS := prevP.fillAmountB + p.feeAmountS })
  else (false, p)

/-- `Ring.calculateFees` (ring.ts lines 238-278).  `spendableFee` is the
value returned by the awaited `getSpendableFee(p.order)` on the non-P2P
path.  The returned `Bool` is the source's return value; the participation
is returned with all in-place mutations applied (they persist even when the
function returns `false`). -/
def calculateFees (base spendableFee : Int) (p0 prevP : Participation) :
    Bool × Participation :=
  if p0.order.P2P then
    let p := { p0 with
        feeAmount := 0
        feeAmountS := (p0.fillAmountS * p0.order.tokenSFeePercentage).tdiv base
        feeAmountB :=
          (p0.fillAmountB * p0.order.tokenBFeePercentage).tdiv base }
    marginCheck p prevP
  else
    let p := { p0 with
        feeAmount := (p0.order.feeAmount * p0.fillAmountS).tdiv p0.order.amountS
        feeAmountS := 0
        feeAmountB := 0 }
    let p :=
      if p.order.feeToken = p.order.tokenB
          ∧ p.order.owner = p.order.tokenRecipient
          ∧ p.feeAmount ≤ p.fillAmountB then
        { p with feeAmountB := p.feeAmount, feeAmount := 0 }
      else p
    let p := { p with ringSpendableFee := spendableFee }
    if spendableFee < p.feeAmount then (false, p)
    else marginCheck (reserveAmountFee p p.feeAmount) prevP

/-- `transferDataS` coerced for the `canSend` probe of
`calculateFillAmountAndFee` (ring.ts line 183): a missing (or empty, hence
falsy) value becomes `"0x0"`. -/
def transferDataOr0x0 (d : Option String) : String :=
  match d with
  | some s => if s = "" then "0x0" else s
  | none => "0x0"

/-- `Ring.resize` (ring.ts lines 621-640): if the predecessor wants more
than `p` can deliver after its tokenS fee, shrink the predecessor's
`fillAmountB` (and recompute its `fillAmountS`), recording `i` as the new
smallest index. -/
def resize (base : Int) (parts : List Participation) (i smallest : Nat) :
    List Participation × Nat :=
  let n := parts.length
  let j := prevIdx n i
  let p := parts.getD i default
  let prevP := parts.getD j default
  let postFeeFillAmountS :=
    if 0 < p.order.tokenSFeePercentage then
      p.fillAmountS - (p.fillAmountS * p.order.tokenSFeePercentage).tdiv base
    else p.fillAmountS
  if postFeeFillAmountS < prevP.fillAmountB then
    let prevP := { prevP with
        fillAmountB := postFeeFillAmountS
        fillAmountS :=
          (postFeeFillAmountS * prevP.order.amountS).tdiv prevP.order.amountB }
    (parts.set j prevP, i)
  else (parts, smallest)

/-- One iteration of the fee loop of `Ring.calculateFillAmountAndFee`
(ring.ts lines 172-195): the ERC1400 `canSend` gate, `calculateFees`, and
the accumulation of `minerFeesToOrdersPercentage`.  `getSpendFee2 i` is the
value the awaited `getSpendableFee` returns inside `calculateFees` at index
`i`; `canSendF` answers the ERC1400 probe. -/
def feesStep (base : Int) (getSpendFee2 : Nat → Int) (canSendF : CanSendFn)
    (st : RingState) (i : Nat) : RingState :=
  let n := st.parts.length
  let p := st.parts.getD i default
  let prevP := st.parts.getD (prevIdx n i) default
  let valid1 :=
    if p.order.tokenTypeS = TokenType.ERC1400 then
      let res := canSendF p.order.owner prevP.order.tokenRecipient
        p.order.trancheS p.fillAmountS (transferDataOr0x0 p.order.transferDataS)
      st.valid
        && decide (res.1 = "0xa0" ∨ res.1 = "0xa1" ∨ res.1 = "0xa2")
        && decide (res.2 = prevP.order.trancheB)
    else st.valid
  let fr := calculateFees base (getSpendFee2 i) p prevP
  let mfp :=
    if p.order.waiveFeePercentage < 0 then
      st.minerFeesToOrdersPercentage - p.order.waiveFeePercentage
    else st.minerFeesToOrdersPercentage
  { parts := st.parts.set i fr.2
    valid := valid1 && fr.1
    minerFeesToOrdersPercentage := mfp }

/-- `Ring.calculateFillAmountAndFee` (ring.ts lines 144-203).  The oracle
parameters supply the values of the awaited chain reads: `getSpendS i` /
`getSpendFee i` feed `setMaxFillAmounts` for participation `i`,
`getSpendFee2 i` feeds `calculateFees`, and `canSendF` answers the ERC1400
probes.  An invalid ring returns unchanged (lines 146-148). -/
def calculateFillAmountAndFee (base : Int)
    (getSpendS getSpendFee getSpendFee2 : Nat → Int) (canSendF : CanSendFn)
    (st : RingState) : RingState :=
  if st.valid then
    let n := st.parts.length
    let parts1 := st.parts.mapIdx
      (fun i p => setMaxFillAmounts (getSpendS i) (getSpendFee i) p)
    let rs := (List.range n).reverse.foldl
      (fun acc i => resize base acc.1 i acc.2) (parts1, 0)
    let parts2 := ((List.range n).reverse.filter (fun i => rs.2 ≤ i)).foldl
      (fun ps i => (resize base ps i rs.2).1) rs.1
    let parts3 := parts2.map reserveAmountS
    let st1 : RingState :=
      { parts := parts3
        valid := st.valid
        minerFeesToOrdersPercentage := st.minerFeesToOrdersPercentage }
    let st2 := (List.range n).foldl (feesStep base getSpendFee2 canSendF) st1
    let st3 := { st2 with
        valid := st2.valid && decide (st2.minerFeesToOrdersPercentage ≤ base) }
    { st3 with parts := st3.parts.map resetReservations }
  else st

/-- `Ring.adjustOrderState` (ring.ts lines 300-319).  The trailing asserts
(`spendableS/spendableFee/brokerSpendableS >= 0`, `filledAmountS <= amountS`)
abort a run but compute nothing. -/
def adjustOrderState (p : Participation) : Participation :=
  let totalAmountS := p.fillAmountS + p.splitS
  let totalAmountFee := p.feeAmount
  let o := { p.order with
      filledAmountS := p.order.filledAmountS + p.fillAmountS + p.splitS
      tokenSpendableS := { p.order.tokenSpendableS with
        amount := p.order.tokenSpendableS.amount - totalAmountS }
      tokenSpendableFee := { p.order.tokenSpendableFee with
        amount := p.order.tokenSpendableFee.amount - totalAmountFee } }
  let o :=
    if o.brokerInterceptor.isSome then
      { o with
          brokerSpendableS := { o.brokerSpendableS with
            amount := o.brokerSpendableS.amount - totalAmountS }
          brokerSpendableFee := { o.brokerSpendableFee with
            amount := o.brokerSpendableFee.amount - totalAmountFee } }
    else o
  { p with order := o }

/-- `Ring.adjustOrderStates` (ring.ts lines 321-326). -/
def adjustOrderStates (st : RingState) : RingState :=
  { st with parts := st.parts.map adjustOrderState }

/-- `Ring.revertOrderStats` (ring.ts lines 328-334): subtracts
`fillAmountS + splitS` back out of `order.filledAmountS` (and nothing
else); the assert `filledAmountS >= 0` computes nothing. -/
def revertOrderStats (st : RingState) : RingState :=
  { st with parts := st.parts.map (fun p =>
      { p with order := { p.order with
          filledAmountS := p.order.filledAmountS - (p.fillAmountS + p.splitS) } }) }

end Ring

/-- A `TransferItem` (`types.ts`).  The source's `from`/`to` fields are
rendered `fromAddr`/`toAddr` (`from` is a Lean keyword). -/
structure TransferItem where
  token : String
  fromAddr : String
  toAddr : String
  amount : Int
  tokenType : TokenType
  fromTranche : String
  toTranche : String
  data : Option String := none
deriving DecidableEq, Inhabited

namespace Ring

/-- The zero address `"0x" ++ 64 * "0"` (ring.ts line 27). -/
def zeroAddress : String := "0x" ++ String.mk (List.replicate 64 '0')

/-- `data` coerced inside `addTokenTransfer` (ring.ts line 446): a missing
(or empty, hence falsy) value becomes `"0x"`. -/
def transferDataOr0x (d : Option String) : String :=
  match d with
  | some s => if s = "" then "0x" else s
  | none => "0x"

/-- `Ring.addTokenTransfer` (ring.ts lines 432-453).  Emits nothing for a
self-transfer or a non-positive amount.  For ERC1400 the `canSend` probe is
consulted; a status code outside `{0xa0, 0xa1, 0xa2}` fails the assert and
aborts the run (`Except.error`). -/
def addTokenTransfer (canSendF : CanSendFn) (tokenType : TokenType)
    (fromTranche token fromA toA : String) (amount : Int) (data : Option String) :
    Except Unit (Option TransferItem) :=
  if fromA ≠ toA ∧ 0 < amount then
    match tokenType with
    | TokenType.ERC20 =>
        Except.ok (some
          { token := token, fromAddr := fromA, toAddr := toA, amount := amount
            tokenType := tokenType, fromTranche := zeroAddress
            toTranche := zeroAddress })
    | TokenType.ERC1400 =>
        let tranferData := transferDataOr0x data
        let res := canSendF fromA toA fromTranche amount tranferData
        if res.1 = "0xa0" ∨ res.1 = "0xa1" ∨ res.1 = "0xa2" then
          Except.ok (some
            { token := token, fromAddr := fromA, toAddr := toA, amount := amount
              tokenType := tokenType, fromTranche := fromTranche
              toTranche := res.2, data := some tranferData })
        else Except.error ()
  else Except.ok none

/-- The body of the loop of `Ring.transferTokens` for one participation
(ring.ts lines 358-417): the four `addTokenTransfer` calls for participation
`p` with cyclic predecessor `prevP`.  `feeHolder` is
`context.feeHolder.address` and `feeRecipient` is `mining.feeRecipient`.
When `tokenTypeS == ERC1400` the margin is forced to zero (lines 380-384). -/
def transferTokensForParticipation (canSendF : CanSendFn)
    (feeHolder feeRecipient : String) (p prevP : Participation) :
    Except Unit (List TransferItem) := do
  let buyerFeeAmountAfterRebateB := prevP.feeAmountB - prevP.rebateB
  -- assert(buyerFeeAmountAfterRebateB >= 0)
  let amountSToBuyer := p.fillAmountS - p.feeAmountS - buyerFeeAmountAfterRebateB
  let amountSToFeeHolder0 := (p.feeAmountS - p.rebateS) + buyerFeeAmountAfterRebateB
  let amountFeeToFeeHolder0 := p.feeAmount - p.rebateFee
  let amounts :=
    if p.order.tokenS = p.order.feeToken then
      (amountSToFeeHolder0 + amountFeeToFeeHolder0, (0 : Int))
    else (amountSToFeeHolder0, amountFeeToFeeHolder0)
  let margin :=
    if p.order.tokenTypeS = TokenType.ERC1400 then (0 : Int) else p.splitS
  let t1 ← addTokenTransfer canSendF p.order.tokenTypeS p.order.trancheS
    p.order.tokenS p.order.owner prevP.order.tokenRecipient amountSToBuyer
    p.order.transferDataS
  let t2 ← addTokenTransfer canSendF p.order.tokenTypeS p.order.trancheS
    p.order.tokenS p.order.owner feeHolder amounts.1 p.order.transferDataS
  let t3 ← addTokenTransfer canSendF p.order.tokenTypeFee p.order.trancheFee
    p.order.feeToken p.order.owner feeHolder amounts.2 (some "0x")
  let t4 ← addTokenTransfer canSendF p.order.tokenTypeS p.order.trancheS
    p.order.tokenS p.order.owner feeRecipient margin p.order.transferDataS
  return t1.toList ++ t2.toList ++ t3.toList ++ t4.toList

end Ring

namespace BalanceBook

/-- Update the value at `k` (keeping its position), or append `(k, f none)`
at the end when `k` is absent — JavaScript object-key semantics
(`Object.keys` enumerates string keys in insertion order). -/
def updKey {v : Type} (k : String) (f : Option v → v) :
    List (String × v) → List (String × v)
  | [] => [(k, f none)]
  | (k1, x) :: rest =>
      if k1 = k then (k, f (some x)) :: rest else (k1, x) :: updKey k f rest

/-- A `BalanceBook` (balance_book.ts): `balances[owner][token][tranche]`,
three nested insertion-ordered string-keyed objects. -/
abbrev Book : Type := List (String × List (String × List (String × Int)))

/-- `BalanceBook.addBalance` (balance_book.ts lines 24-38): create the three
nesting levels on absence (a missing leaf counts as zero), then add. -/
def addBalance (book : Book) (owner token tranche : String) (amount : Int) :
    Book :=
  updKey owner
    (fun ownerMap => updKey token
      (fun tokenMap => updKey tranche
        (fun old => old.getD 0 + amount)
        (tokenMap.getD []))
      (ownerMap.getD []))
    book

/-- `BalanceBook.getBalance` (balance_book.ts lines 16-22): zero if any of
the three levels is absent. -/
def getBalance (book : Book) (owner token tranche : String) : Int :=
  match book.lookup owner with
  | none => 0
  | some ownerMap =>
      match ownerMap.lookup token with
      | none => 0
      | some tokenMap =>
          match tokenMap.lookup tranche with
          | none => 0
          | some amount => amount

/-- `BalanceBook.getAllTokens` (balance_book.ts lines 60-68): for every
owner, push every token key of that owner — a token held by several owners
is pushed once per owner. -/
def getAllTokens (book : Book) : List String :=
  book.flatMap (fun ownerEntry => ownerEntry.2.map (fun tokenEntry => tokenEntry.1))

end BalanceBook

/-- Generic positional update of a list, as JavaScript's in-place
`array[i] = f(array[i])`; out-of-range indices are no-ops. -/
def modifyIdx {α : Type} (f : α → α) : Nat → List α → List α
  | _, [] => []
  | 0, a :: as => f a :: as
  | n + 1, a :: as => a :: modifyIdx f n as

/-- The number of currently valid orders: the measure of the all-or-none
fixed point. -/
def countValid (orders : List OrderInfo) : Nat :=
  orders.countP (fun o => o.valid)

namespace ProtocolSimulator

/-- Modelled from the spec: `OrderUtil.validateAllOrNone` (order.ts, not in
the given sources) "sets `order.valid=false` if `allOrNone` and
`filledAmountS < amountS` after settlement planning". -/
def validateAllOrNone (o : OrderInfo) : OrderInfo :=
  if o.allOrNone && decide (o.filledAmountS < o.amountS) then
    { o with valid := false }
  else o

/-- One order of the per-order loop of `checkRings` (part_000 lines
250-257): `validateAllOrNone` is called only on `allOrNone` orders. -/
def aonStep (o : OrderInfo) : OrderInfo :=
  if o.allOrNone then validateAllOrNone o else o

/-- Whether `checkRings` records a validity flip for this order
(`validBefore !== order.valid`, guarded by `order.allOrNone`). -/
def aonChanged (o : OrderInfo) : Bool :=
  o.allOrNone && ((validateAllOrNone o).valid != o.valid)

/-- The per-order loop of `checkRings` (part_000 lines 250-257): the updated
orders together with the accumulated `reevaluateRings` flag. -/
def aonPass (orders : List OrderInfo) : List OrderInfo × Bool :=
  (orders.map aonStep, orders.any aonChanged)

/-- In the simulator, a ring's participation holds a reference into the
shared order list; modelled by the order's index into the store plus the
fill data that `revertOrderStats` reads. -/
structure SimParticipation where
  orderIdx : Nat
  fillAmountS : Int := 0
  splitS : Int := 0
deriving DecidableEq, Inhabited

/-- A ring as seen by `checkRings`: its participations (as store references)
and its `valid` flag.  All other `Ring` fields are untouched there. -/
structure SimRing where
  parts : List SimParticipation
  valid : Bool
deriving DecidableEq, Inhabited

/-- `Ring.checkOrdersValid` (ring.ts lines 120-133) as invoked from the
simulator's `checkRings`, reading the shared order store through the
participations' indices.  Only the ring's `valid` flag is written. -/
def ringCheckOrdersValid (orders : List OrderInfo) (r : SimRing) : SimRing :=
  let n := r.parts.length
  let v0 := r.valid && decide (1 < n ∧ n ≤ 8)
  let v := (List.range n).foldl
    (fun v i =>
      let o := orders.getD (r.parts.getD i default).orderIdx default
      let po := orders.getD
        (r.parts.getD (prevIdx n i) default).orderIdx default
      v && o.valid && decide (o.tokenS = po.tokenB)
        && decide (o.tokenTypeS = po.tokenTypeB))
    v0
  { r with valid := v }

/-- `Ring.revertOrderStats` (ring.ts lines 328-334) as invoked from the
simulator's `checkRings`: for each participation, subtract
`fillAmountS + splitS` from the shared order's `filledAmountS`. -/
def ringRevertOrderStats (orders : List OrderInfo)
    (parts : List SimParticipation) : List OrderInfo :=
  parts.foldl
    (fun os p => modifyIdx
      (fun o => { o with
          filledAmountS := o.filledAmountS - (p.fillAmountS + p.splitS) })
      p.orderIdx os)
    orders

/-- The ring-reevaluation pass of `checkRings` (part_000 lines 259-269):
each ring is re-checked against the current order store; a ring flipping
from valid to invalid reverts its fills in the store. -/
def reevaluateRings (orders : List OrderInfo) :
    List SimRing → List OrderInfo × List SimRing
  | [] => (orders, [])
  | r :: rs =>
    let r1 := ringCheckOrdersValid orders r
    let orders1 :=
      if r.valid && !r1.valid then ringRevertOrderStats orders r.parts
      else orders
    let rest := reevaluateRings orders1 rs
    (rest.1, r1 :: rest.2)

/-- The outer `while (reevaluateRings)` loop of
`ProtocolSimulator.checkRings` (part_000 lines 242-271), together with the
number of executions of the loop body.  Termination: an iteration that
continues has flipped at least one valid all-or-none order to invalid, and
the reevaluation pass never changes an order's `valid` flag, so the number
of valid orders strictly decreases. -/
def checkRingsAux (orders : List OrderInfo) (rings : List SimRing) :
    (List OrderInfo × List SimRing) × Nat :=
  if h : (aonPass orders).2 = true then
    let rr := reevaluateRings (aonPass orders).1 rings
    match checkRingsAux rr.1 rr.2 with
    | (res, cnt) => (res, cnt + 1)
  else (((aonPass orders).1, rings), 1)
termination_by countValid orders
decreasing_by
  simp only [aonPass] at h ⊢
  have hmod : ∀ (d : Int) (i : Nat) (l : List OrderInfo),
      countValid (modifyIdx
        (fun o => { o with filledAmountS := o.filledAmountS - d }) i l)
        = countValid l := by
    intro d i l
    induction l generalizing i with
    | nil => cases i <;> rfl
    | cons a as ih =>
      cases i with
      | zero => simp [modifyIdx, countValid, List.countP_cons]
      | succ n =>
        simp only [modifyIdx, countValid, List.countP_cons] at *
        rw [ih n]
  have hrev : ∀ (parts : List SimParticipation) (os : List OrderInfo),
      countValid (ringRevertOrderStats os parts) = countValid os := by
    intro parts
    induction parts with
    | nil => intro os; rfl
    | cons p ps ih =>
      intro os
      unfold ringRevertOrderStats at ih ⊢
      simp only [List.foldl_cons]
      rw [ih, hmod]
  have hre : ∀ (rings1 : List SimRing) (os : List OrderInfo),
      countValid (reevaluateRings os rings1).1 = countValid os := by
    intro rings1
    induction rings1 with
    | nil => intro os; rfl
    | cons r rs ih =>
      intro os
      unfold reevaluateRings
      simp only
      rw [ih]
      split
      · exact hrev r.parts os
      · rfl
  have hvv : ∀ o : OrderInfo, (validateAllOrNone o).valid
      = (o.valid && !(o.allOrNone && decide (o.filledAmountS < o.amountS))) := by
    intro o
    unfold validateAllOrNone
    cases h1 : o.allOrNone <;> cases h2 : decide (o.filledAmountS < o.amountS)
      <;> simp [h1, h2]
  have hstep_le : ∀ o : OrderInfo,
      (if (aonStep o).valid = true then 1 else 0)
        ≤ (if o.valid = true then (1 : Nat) else 0) := by
    intro o
    unfold aonStep
    by_cases ha : o.allOrNone
    · simp only [ha, if_true]
      rw [hvv]
      cases o.valid
      · simp
      · simp
        split <;> simp
    · simp [ha]
  have hchg : ∀ o : OrderInfo, aonChanged o = true →
      o.valid = true ∧ (aonStep o).valid = false := by
    intro o hc
    unfold aonChanged at hc
    simp only [Bool.and_eq_true, bne_iff_ne, ne_eq] at hc
    rcases hc with ⟨ha, hne⟩
    rw [hvv] at hne
    unfold aonStep
    simp only [ha, if_true]
    rw [hvv]
    cases hval : o.valid
    · rw [hval] at hne; simp at hne
    · rw [hval] at hne
      refine ⟨rfl, ?_⟩
      cases hcond : (o.allOrNone && decide (o.filledAmountS < o.amountS))
      · rw [hcond] at hne; simp at hne
      · simp
  have hle : ∀ m : List OrderInfo, countValid (m.map aonStep) ≤ countValid m := by
    intro m
    induction m with
    | nil => simp [countValid]
    | cons b bs ihb =>
      simp only [countValid, List.map_cons, List.countP_cons] at ihb ⊢
      have := hstep_le b
      omega
  have hlt : ∀ l : List OrderInfo, l.any aonChanged = true →
      countValid (l.map aonStep) < countValid l := by
    intro l
    induction l with
    | nil => intro hc; simp at hc
    | cons a as ih =>
      intro hc
      simp only [List.any_cons, Bool.or_eq_true] at hc
      simp only [countValid, List.map_cons, List.countP_cons]
      rcases hc with hc | hc
      · rcases hchg a hc with ⟨hv, hsv⟩
        have hletail := hle as
        simp only [countValid] at hletail
        have e1 : (if (aonStep a).valid = true then (1 : Nat) else 0) = 0 := by
          simp [hsv]
        have e2 : (if a.valid = true then (1 : Nat) else 0) = 1 := by
          simp [hv]
        rw [e1, e2]
        omega
      · have hlt1 := ih hc
        simp only [countValid] at hlt1
        have := hstep_le a
        omega
  rw [hre]
  exact hlt orders h

/-- `ProtocolSimulator.checkRings` (part_000 lines 242-271): the final order
store and ring list at the all-or-none fixed point. -/
def checkRings (orders : List OrderInfo) (rings : List SimRing) :
    List OrderInfo × List SimRing :=
  (checkRingsAux orders rings).1

/-- The all-or-none clause of `ProtocolSimulator.validateRings` (part_000
lines 508-514): every `allOrNone` order must be completely filled or not at
all (the failing `assert` is fatal). -/
def validateRingsAON (orders : List OrderInfo) : Bool :=
  orders.all (fun o =>
    !o.allOrNone
      || (decide (o.filledAmountS = 0) || decide (o.filledAmountS = o.amountS)))

/-- The cancellation sentinel `new BigNumber("F".repeat(64), 16)` (part_000
line 298): sixty-four hex F digits, i.e. `2^256 - 1`. -/
def cancelledValue : Int := 2 ^ 256 - 1

/-- `ProtocolSimulator.batchGetFilledAndCheckCancelled` (part_000 lines
285-303), after the `tradeDelegate` call: the returned values are
parallel-indexed to the orders; each order receives `filledAmountS` and is
invalidated when its value equals the sentinel.  `fills` is the oracle
result of the chain call. -/
def batchGetFilledAndCheckCancelled (orders : List OrderInfo)
    (fills : List Int) : List OrderInfo :=
  orders.zipWith
    (fun o f =>
      { o with
          filledAmountS := f
          valid := o.valid && !decide (f = cancelledValue) })
    fills

/-- The contribution of ring participation `p` to order `k`'s
`filledAmountS`, as `adjustOrderState` adds it and `revertOrderStats`
removes it (statement-side accounting definition). -/
def partContrib (k : Nat) (p : SimParticipation) : Int :=
  if p.orderIdx = k then p.fillAmountS + p.splitS else 0

/-- The contribution of a ring to order `k`'s `filledAmountS`: its
participations' contributions when the ring is valid, zero otherwise
(statement-side accounting definition). -/
def ringContrib (k : Nat) (r : SimRing) : Int :=
  if r.valid then (r.parts.map (partContrib k)).sum else 0

/-- Total contribution of all rings to order `k`'s `filledAmountS`
(statement-side accounting definition). -/
def totalContrib (k : Nat) (rings : List SimRing) : Int :=
  (rings.map (ringContrib k)).sum

/-- Statement-side invariant: every order's `filledAmountS` equals the
total contribution of the currently valid rings — the state produced by
the per-ring `adjustOrderStates` phase when the orders entered the batch
unfilled. -/
abbrev FilledInv (os : List OrderInfo) (rings : List SimRing) : Prop :=
  ∀ k, k < os.length →
    (os.getD k default).filledAmountS = totalContrib k rings

/-- Statement-side well-formedness: every ring participation references an
order inside the store. -/
abbrev IdxWf (os : List OrderInfo) (rings : List SimRing) : Prop :=
  ∀ r ∈ rings, ∀ p ∈ r.parts, p.orderIdx < os.length

/-- Statement-side invariant: a valid ring references only valid orders
(established by `checkOrdersValid`, re-established on every reevaluation
pass). -/
abbrev ValidSound (os : List OrderInfo) (rings : List SimRing) : Prop :=
  ∀ r ∈ rings, r.valid = true →
    ∀ p ∈ r.parts, (os.getD p.orderIdx default).valid = true

/-- Statement-side: ring fill contributions are nonnegative. -/
abbrev ContribNonneg (rings : List SimRing) : Prop :=
  ∀ r ∈ rings, ∀ p ∈ r.parts, 0 ≤ p.fillAmountS + p.splitS

/-- Statement-side: no order is filled beyond its `amountS` (the
`filledAmountS <= amountS` assert of `adjustOrderState`). -/
abbrev FilledLe (os : List OrderInfo) : Prop :=
  ∀ k, k < os.length →
    (os.getD k default).filledAmountS ≤ (os.getD k default).amountS

end ProtocolSimulator

/-- Ring-closure at index `i`: `fillAmountS − feeAmountS` of participation
`i` equals `fillAmountB` of its cyclic predecessor (statement-side
definition; spec section 8, invariant 1). -/
def closureAt (st : RingState) (i : Nat) : Prop :=
  (st.parts.getD i default).fillAmountS - (st.parts.getD i default).feeAmountS
    = (st.parts.getD (prevIdx st.parts.length i) default).fillAmountB

/-! ## Theorems: helper lemmas shared between the claims -/

theorem modifyIdx_getElem? {α : Type} (f : α → α) (i : Nat) (l : List α)
    (k : Nat) :
    (modifyIdx f i l)[k]? = if k = i then (l[k]?).map f else l[k]? := by
  induction l generalizing i k with
  | nil => simp [modifyIdx]
  | cons a as ih =>
    cases i with
    | zero =>
      cases k with
      | zero => simp [modifyIdx]
      | succ m => simp [modifyIdx]
    | succ n =>
      cases k with
      | zero => simp [modifyIdx]
      | succ m => simpa [modifyIdx] using ih n m

theorem modifyIdx_length {α : Type} (f : α → α) (i : Nat) (l : List α) :
    (modifyIdx f i l).length = l.length := by
  induction l generalizing i with
  | nil => simp [modifyIdx]
  | cons a as ih => cases i <;> simp [modifyIdx, ih]

namespace ProtocolSimulator

theorem aonStep_eq (o : OrderInfo) : aonStep o = validateAllOrNone o := by
  unfold aonStep validateAllOrNone
  by_cases h : o.allOrNone <;> simp [h]

theorem validateAllOrNone_valid (o : OrderInfo) :
    (validateAllOrNone o).valid
      = (o.valid && !(o.allOrNone && decide (o.filledAmountS < o.amountS))) := by
  unfold validateAllOrNone
  cases h1 : o.allOrNone <;> cases h2 : decide (o.filledAmountS < o.amountS)
    <;> simp [h1, h2]

theorem validateAllOrNone_keeps (o : OrderInfo) :
    (validateAllOrNone o).allOrNone = o.allOrNone
    ∧ (validateAllOrNone o).filledAmountS = o.filledAmountS
    ∧ (validateAllOrNone o).amountS = o.amountS := by
  unfold validateAllOrNone
  split <;> simp

theorem aonChanged_eq (o : OrderInfo) :
    aonChanged o
      = (o.allOrNone && o.valid && decide (o.filledAmountS < o.amountS)) := by
  unfold aonChanged
  rw [validateAllOrNone_valid]
  cases h1 : o.allOrNone <;> cases h2 : o.valid
    <;> cases h3 : decide (o.filledAmountS < o.amountS) <;> simp [h1, h2, h3]

theorem countValid_aonStep_le (l : List OrderInfo) :
    countValid (l.map aonStep) ≤ countValid l := by
  induction l with
  | nil => simp [countValid]
  | cons a l ih =>
    simp only [countValid, List.map_cons, List.countP_cons] at ih ⊢
    have h : (if (aonStep a).valid = true then 1 else 0)
        ≤ (if a.valid = true then (1 : Nat) else 0) := by
      rw [aonStep_eq, validateAllOrNone_valid]
      cases a.valid
      · simp
      · simp
        split <;> simp
    omega

theorem countValid_aonStep_lt (l : List OrderInfo)
    (h : l.any aonChanged = true) :
    countValid (l.map aonStep) < countValid l := by
  induction l with
  | nil => simp at h
  | cons a l ih =>
    simp only [List.any_cons, Bool.or_eq_true] at h
    simp only [countValid, List.map_cons, List.countP_cons]
    rcases h with h | h
    · rw [aonChanged_eq] at h
      simp only [Bool.and_eq_true, decide_eq_true_eq] at h
      have hva : (aonStep a).valid = false := by
        rw [aonStep_eq, validateAllOrNone_valid]
        simp [h.1.1, h.1.2, h.2]
      have hle := countValid_aonStep_le l
      simp only [countValid] at hle
      have e1 : (if (aonStep a).valid = true then (1 : Nat) else 0) = 0 := by
        simp [hva]
      have e2 : (if a.valid = true then (1 : Nat) else 0) = 1 := by
        simp [h.1.2]
      rw [e1, e2]
      omega
    · have hlt := ih h
      simp only [countValid] at hlt
      have hle : (if (aonStep a).valid = true then 1 else 0)
          ≤ (if a.valid = true then (1 : Nat) else 0) := by
        rw [aonStep_eq, validateAllOrNone_valid]
        cases a.valid
        · simp
        · simp
          split <;> simp
      omega

theorem ringRevertOrderStats_getElem? (parts : List SimParticipation)
    (os : List OrderInfo) (k : Nat) :
    (ringRevertOrderStats os parts)[k]?
      = (os[k]?).map (fun o => { o with
          filledAmountS :=
            o.filledAmountS - (parts.map (partContrib k)).sum }) := by
  induction parts generalizing os with
  | nil =>
    unfold ringRevertOrderStats
    simp only [List.foldl_nil, List.map_nil, List.sum_nil]
    cases os[k]? <;> simp
  | cons p ps ih =>
    unfold ringRevertOrderStats at ih ⊢
    simp only [List.foldl_cons]
    rw [ih, modifyIdx_getElem?]
    simp only [List.map_cons, List.sum_cons]
    by_cases hk : k = p.orderIdx
    · simp only [hk, if_true, partContrib, if_pos rfl]
      cases os[p.orderIdx]? <;> simp [Int.sub_sub]
    · have : partContrib k p = 0 := by
        unfold partContrib
        rw [if_neg]
        intro hc
        exact hk hc.symm
      rw [if_neg hk, this]
      simp

theorem ringRevertOrderStats_length (parts : List SimParticipation)
    (os : List OrderInfo) :
    (ringRevertOrderStats os parts).length = os.length := by
  induction parts generalizing os with
  | nil => rfl
  | cons p ps ih =>
    unfold ringRevertOrderStats at ih ⊢
    simp only [List.foldl_cons]
    rw [ih, modifyIdx_length]

theorem ringCheckOrdersValid_parts (orders : List OrderInfo) (r : SimRing) :
    (ringCheckOrdersValid orders r).parts = r.parts := rfl

end ProtocolSimulator

/-! ## Claim C2 — `revertOrderStats` after `adjustOrderStates` -/

/-- Claim C2 (amended): running `adjustOrderStates` and then
`revertOrderStats` restores every participation's `order.filledAmountS` to
its value before `adjustOrderStates`, but does not restore the spendables:
`tokenSpendableS.amount` keeps the subtraction of `fillAmountS + splitS`
and `tokenSpendableFee.amount` keeps the subtraction of `feeAmount`
(`revertOrderStats`, ring.ts lines 328-334, only writes `filledAmountS`). -/
theorem adjustOrderStates_then_revertOrderStats (st : RingState) :
    (Ring.revertOrderStats (Ring.adjustOrderStates st)).parts.map
        (fun p => p.order.filledAmountS)
      = st.parts.map (fun p => p.order.filledAmountS)
    ∧ (Ring.revertOrderStats (Ring.adjustOrderStates st)).parts.map
        (fun p => p.order.tokenSpendableS.amount)
      = st.parts.map
        (fun p => p.order.tokenSpendableS.amount - (p.fillAmountS + p.splitS))
    ∧ (Ring.revertOrderStats (Ring.adjustOrderStates st)).parts.map
        (fun p => p.order.tokenSpendableFee.amount)
      = st.parts.map
        (fun p => p.order.tokenSpendableFee.amount - p.feeAmount) := by
  unfold Ring.revertOrderStats Ring.adjustOrderStates Ring.adjustOrderState
  simp only [List.map_map]
  refine ⟨List.map_congr_left ?_, List.map_congr_left ?_,
    List.map_congr_left ?_⟩
    <;> intro p _ <;> simp only [Function.comp_apply]
    <;> split <;> simp

/-- Claim C2 counterexample: a concrete two-participation ring (fills `10`
and `20`, fees `5` and `0`, ample spendables, all run-time asserts
satisfied) for which adjust-then-revert does restore `filledAmountS` but
leaves `tokenSpendableS.amount` changed from `100` to `90`, so the state is
not restored. -/
theorem revertOrderStats_not_inverse_counterexample :
    ((Ring.revertOrderStats (Ring.adjustOrderStates
        { parts := [
            { order := { owner := "a", tokenS := "X", tokenB := "Y",
                         amountS := 100,
                         tokenSpendableS := { amount := 100 },
                         tokenSpendableFee := { amount := 50 } }
              fillAmountS := 10, feeAmount := 5 },
            { order := { owner := "b", tokenS := "Y", tokenB := "X",
                         amountS := 100,
                         tokenSpendableS := { amount := 100 },
                         tokenSpendableFee := { amount := 50 } }
              fillAmountS := 20 }]
          valid := true
          minerFeesToOrdersPercentage := 0 })).parts.getD 0 default).order.tokenSpendableS.amount = 90
    ∧ ((Ring.revertOrderStats (Ring.adjustOrderStates
        { parts := [
            { order := { owner := "a", tokenS := "X", tokenB := "Y",
                         amountS := 100,
                         tokenSpendableS := { amount := 100 },
                         tokenSpendableFee := { amount := 50 } }
              fillAmountS := 10, feeAmount := 5 },
            { order := { owner := "b", tokenS := "Y", tokenB := "X",
                         amountS := 100,
                         tokenSpendableS := { amount := 100 },
                         tokenSpendableFee := { amount := 50 } }
              fillAmountS := 20 }]
          valid := true
          minerFeesToOrdersPercentage := 0 })).parts.getD 0 default).order.filledAmountS = 0
    ∧ Ring.revertOrderStats (Ring.adjustOrderStates
        { parts := [
            { order := { owner := "a", tokenS := "X", tokenB := "Y",
                         amountS := 100,
                         tokenSpendableS := { amount := 100 },
                         tokenSpendableFee := { amount := 50 } }
              fillAmountS := 10, feeAmount := 5 },
            { order := { owner := "b", tokenS := "Y", tokenB := "X",
                         amountS := 100,
                         tokenSpendableS := { amount := 100 },
                         tokenSpendableFee := { amount := 50 } }
              fillAmountS := 20 }]
          valid := true
          minerFeesToOrdersPercentage := 0 })
      ≠ { parts := [
            { order := { owner := "a", tokenS := "X", tokenB := "Y",
                         amountS := 100,
                         tokenSpendableS := { amount := 100 },
                         tokenSpendableFee := { amount := 50 } }
              fillAmountS := 10, feeAmount := 5 },
            { order := { owner := "b", tokenS := "Y", tokenB := "X",
                         amountS := 100,
                         tokenSpendableS := { amount := 100 },
                         tokenSpendableFee := { amount := 50 } }
              fillAmountS := 20 }]
          valid := true
          minerFeesToOrdersPercentage := 0 } := by
  refine ⟨by decide, by decide, ?_⟩
  decide

/-! ## Claim C9 — `BalanceBook.getAllTokens` -/

namespace BalanceBook

theorem updKey_key_mem {v : Type} (k : String) (f : Option v → v)
    (m : List (String × v)) :
    k ∈ (updKey k f m).map Prod.fst := by
  induction m with
  | nil => simp [updKey]
  | cons e rest ih =>
    obtain ⟨k1, x⟩ := e
    unfold updKey
    by_cases h : k1 = k
    · simp [h]
    · simp only [if_neg h, List.map_cons, List.mem_cons]
      exact Or.inr ih

theorem updKey_key_superset {v : Type} (k t : String) (f : Option v → v)
    (m : List (String × v)) (h : t ∈ m.map Prod.fst) :
    t ∈ (updKey k f m).map Prod.fst := by
  induction m with
  | nil => simp at h
  | cons e rest ih =>
    obtain ⟨k1, x⟩ := e
    simp only [List.map_cons, List.mem_cons] at h
    unfold updKey
    by_cases hk : k1 = k
    · simp only [if_pos hk, List.map_cons, List.mem_cons]
      rcases h with h | h
      · exact Or.inl (h.trans hk)
      · exact Or.inr h
    · simp only [if_neg hk, List.map_cons, List.mem_cons]
      rcases h with h | h
      · exact Or.inl h
      · exact Or.inr (ih h)

theorem getAllTokens_addBalance_mem (book : Book)
    (owner token tranche : String) (amount : Int) :
    token ∈ getAllTokens (addBalance book owner token tranche amount) := by
  unfold addBalance
  induction book with
  | nil =>
    unfold updKey getAllTokens
    simp only [List.flatMap_cons, List.flatMap_nil, List.append_nil]
    exact updKey_key_mem token _ _
  | cons e rest ih =>
    obtain ⟨k1, x⟩ := e
    unfold updKey
    by_cases h : k1 = owner
    · simp only [if_pos h]
      unfold getAllTokens
      simp only [List.flatMap_cons, List.mem_append]
      exact Or.inl (updKey_key_mem token _ _)
    · simp only [if_neg h]
      unfold getAllTokens at ih ⊢
      simp only [List.flatMap_cons, List.mem_append]
      exact Or.inr ih

theorem getAllTokens_addBalance_superset (book : Book)
    (owner token tranche : String) (amount : Int) (t : String)
    (h : t ∈ getAllTokens book) :
    t ∈ getAllTokens (addBalance book owner token tranche amount) := by
  unfold addBalance
  induction book with
  | nil => simp [getAllTokens] at h
  | cons e rest ih =>
    obtain ⟨k1, x⟩ := e
    unfold getAllTokens at h
    simp only [List.flatMap_cons, List.mem_append] at h
    unfold updKey
    by_cases hk : k1 = owner
    · simp only [if_pos hk]
      unfold getAllTokens
      simp only [List.flatMap_cons, List.mem_append]
      rcases h with h | h
      · refine Or.inl (updKey_key_superset token t _ x ?_)
        simpa using h
      · exact Or.inr h
    · simp only [if_neg hk]
      unfold getAllTokens at ih ⊢
      simp only [List.flatMap_cons, List.mem_append]
      rcases h with h | h
      · exact Or.inl h
      · exact Or.inr (ih h)

end BalanceBook

/-- Claim C9 (amended): `getAllTokens` returns every token ever written —
the token just added appears, and every token present before an
`addBalance` is still present after — but it is not duplicate-free: a token
held by several owners is returned once per owner holding it (the source
pushes the token key once per `(owner, token)` pair). -/
theorem getAllTokens_all_written_tokens (book : BalanceBook.Book)
    (owner token tranche : String) (amount : Int) :
    token ∈ BalanceBook.getAllTokens
        (BalanceBook.addBalance book owner token tranche amount)
    ∧ (∀ t, t ∈ BalanceBook.getAllTokens book →
        t ∈ BalanceBook.getAllTokens
          (BalanceBook.addBalance book owner token tranche amount)) :=
  ⟨BalanceBook.getAllTokens_addBalance_mem book owner token tranche amount,
   fun t ht =>
     BalanceBook.getAllTokens_addBalance_superset book owner token tranche
       amount t ht⟩

/-- Claim C9 witness: adding `("o1","tokenA")` makes `"tokenA"` appear, and
it is still there after a later write for a different owner and token. -/
theorem getAllTokens_all_written_tokens_witness :
    "tokenA" ∈ BalanceBook.getAllTokens
        (BalanceBook.addBalance ([] : BalanceBook.Book) "o1" "tokenA" "z" 5)
    ∧ "tokenA" ∈ BalanceBook.getAllTokens
        (BalanceBook.addBalance
          (BalanceBook.addBalance ([] : BalanceBook.Book) "o1" "tokenA" "z" 5)
          "o2" "tokenB" "z" 7) :=
  ⟨(getAllTokens_all_written_tokens ([] : BalanceBook.Book) "o1" "tokenA" "z" 5).1,
   (getAllTokens_all_written_tokens
      (BalanceBook.addBalance ([] : BalanceBook.Book) "o1" "tokenA" "z" 5)
      "o2" "tokenB" "z" 7).2 "tokenA" (by decide)⟩

/-- Claim C9 counterexample: two owners holding the same token — the token
appears twice in `getAllTokens`, refuting "no token appears more than
once". -/
theorem getAllTokens_duplicates_counterexample :
    BalanceBook.getAllTokens
        (BalanceBook.addBalance
          (BalanceBook.addBalance ([] : BalanceBook.Book) "o1" "tokenA" "z" 1)
          "o2" "tokenA" "z" 1)
      = ["tokenA", "tokenA"]
    ∧ (BalanceBook.getAllTokens
        (BalanceBook.addBalance
          (BalanceBook.addBalance ([] : BalanceBook.Book) "o1" "tokenA" "z" 1)
          "o2" "tokenA" "z" 1)).count "tokenA" = 2 := by
  constructor
  · decide
  · decide

/-! ## Claim C8 — `batchGetFilledAndCheckCancelled` -/

/-- Claim C8 (confirmed): with the chain result parallel-indexed to the
orders, `batchGetFilledAndCheckCancelled` sets each order's `filledAmountS`
to the i-th returned value, and the order ends invalid exactly when it was
already invalid or the returned value equals the cancellation sentinel
`2^256 − 1`. -/
theorem batchGetFilledAndCheckCancelled_spec (orders : List OrderInfo)
    (fills : List Int) (hlen : fills.length = orders.length) (i : Nat)
    (hi : i < orders.length) :
    ((ProtocolSimulator.batchGetFilledAndCheckCancelled orders fills).getD i
        default).filledAmountS = fills.getD i 0
    ∧ (((ProtocolSimulator.batchGetFilledAndCheckCancelled orders fills).getD i
        default).valid = false
      ↔ ((orders.getD i default).valid = false
          ∨ fills.getD i 0 = ProtocolSimulator.cancelledValue)) := by
  induction orders generalizing fills i with
  | nil => simp at hi
  | cons o os ih =>
    cases fills with
    | nil => simp at hlen
    | cons f fs =>
      have hstep : ProtocolSimulator.batchGetFilledAndCheckCancelled
          (o :: os) (f :: fs)
          = { o with
                filledAmountS := f
                valid := o.valid
                  && !decide (f = ProtocolSimulator.cancelledValue) }
            :: ProtocolSimulator.batchGetFilledAndCheckCancelled os fs := rfl
      rw [hstep]
      cases i with
      | zero =>
        simp only [List.getD_cons_zero]
        refine ⟨by simp, ?_⟩
        by_cases hf : f = ProtocolSimulator.cancelledValue
          <;> cases hv : o.valid <;> simp [hf, hv]
      | succ m =>
        simp only [List.getD_cons_succ]
        exact ih fs (by simpa using hlen) m (by simpa using hi)

/-- Claim C8 witness: two orders, the second answered with the sentinel —
it receives the sentinel as `filledAmountS` and flips to invalid. -/
theorem batchGetFilledAndCheckCancelled_spec_witness :
    ((ProtocolSimulator.batchGetFilledAndCheckCancelled
        [({} : OrderInfo), ({} : OrderInfo)]
        [7, ProtocolSimulator.cancelledValue]).getD 1 default).filledAmountS
      = [(7 : Int), ProtocolSimulator.cancelledValue].getD 1 0
    ∧ (((ProtocolSimulator.batchGetFilledAndCheckCancelled
        [({} : OrderInfo), ({} : OrderInfo)]
        [7, ProtocolSimulator.cancelledValue]).getD 1 default).valid = false
      ↔ ((([({} : OrderInfo), ({} : OrderInfo)]).getD 1 default).valid = false
          ∨ [(7 : Int), ProtocolSimulator.cancelledValue].getD 1 0
              = ProtocolSimulator.cancelledValue)) :=
  batchGetFilledAndCheckCancelled_spec
    [({} : OrderInfo), ({} : OrderInfo)]
    [7, ProtocolSimulator.cancelledValue] (by decide) 1 (by decide)

/-! ## Claim C3 — proportional split in `setMaxFillAmounts` -/

/-- Claim C3 (confirmed): for a non-P2P order whose fee-from-bought-amount
shortcut does not apply, whose pro-rata fee is positive, with
`feeToken == tokenS` and `fillAmountS + fee > ringSpendableS`, the spendable
is split pro rata over `total = amountS + order.feeAmount`:
`fillAmountS = ringSpendableS·amountS / total` (truncated), and
`fillAmountB` follows from it. -/
theorem setMaxFillAmounts_proportional_split (spendS spendFee : Int)
    (p : Participation)
    (hP2P : p.order.P2P = false)
    (hshort : ¬ (p.order.feeToken = p.order.tokenB
        ∧ p.order.owner = p.order.tokenRecipient
        ∧ p.order.feeAmount ≤ p.order.amountB))
    (hfee : 0 < (p.order.feeAmount
        * min spendS (p.order.amountS - p.order.filledAmountS)).tdiv
        p.order.amountS)
    (htok : p.order.feeToken = p.order.tokenS)
    (hover : spendS < min spendS (p.order.amountS - p.order.filledAmountS)
        + (p.order.feeAmount
            * min spendS (p.order.amountS - p.order.filledAmountS)).tdiv
            p.order.amountS) :
    (Ring.setMaxFillAmounts spendS spendFee p).fillAmountS
      = (spendS * p.order.amountS).tdiv (p.order.amountS + p.order.feeAmount)
    ∧ (Ring.setMaxFillAmounts spendS spendFee p).fillAmountB
      = ((spendS * p.order.amountS).tdiv (p.order.amountS + p.order.feeAmount)
          * p.order.amountB).tdiv p.order.amountS := by
  unfold Ring.setMaxFillAmounts
  simp only [hP2P, Bool.false_eq_true, if_false]
  rw [if_neg hshort, if_pos hfee, if_pos ⟨htok, hover⟩]
  exact ⟨rfl, rfl⟩

/-- Claim C3 witness: the spec's boundary scenario S3 — `amountS = 1000`,
`feeAmount = 100`, spendable `600` — yields `fillAmountS = 545`, and the
branch fee formula yields `600·100/1100 = 54`. -/
theorem setMaxFillAmounts_proportional_split_witness :
    (Ring.setMaxFillAmounts 600 600
        { order := { owner := "a", tokenRecipient := "a", tokenS := "T",
                     tokenB := "B", feeToken := "T", amountS := 1000,
                     amountB := 1000, feeAmount := 100 } }).fillAmountS = 545
    ∧ ((600 : Int) * 100).tdiv 1100 = 54 := by
  refine ⟨?_, by decide⟩
  have h := setMaxFillAmounts_proportional_split 600 600
      { order := { owner := "a", tokenRecipient := "a", tokenS := "T",
                   tokenB := "B", feeToken := "T", amountS := 1000,
                   amountB := 1000, feeAmount := 100 } }
      (by decide) (by decide) (by decide) (by decide) (by decide)
  rw [h.1]
  decide

/-! ## Claim C6 — fee-mode exclusivity in `calculateFees` -/

theorem marginCheck_fees (a b : Participation) :
    (Ring.marginCheck a b).2.feeAmount = a.feeAmount
    ∧ (Ring.marginCheck a b).2.feeAmountS = a.feeAmountS
    ∧ (Ring.marginCheck a b).2.feeAmountB = a.feeAmountB := by
  unfold Ring.marginCheck
  split <;> exact ⟨rfl, rfl, rfl⟩

/-- Claim C6 (amended): for a non-P2P participation that survives
`calculateFees`, `feeAmountS = 0` and at most one of `feeAmount`,
`feeAmountB` is nonzero — both are zero when the pro-rata fee itself is
zero (e.g. `order.feeAmount = 0`), so "exactly one" does not hold. -/
theorem calculateFees_fee_mode (base spendableFee : Int)
    (p prevP : Participation) (hP2P : p.order.P2P = false)
    (hok : (Ring.calculateFees base spendableFee p prevP).1 = true) :
    (Ring.calculateFees base spendableFee p prevP).2.feeAmountS = 0
    ∧ ((Ring.calculateFees base spendableFee p prevP).2.feeAmount = 0
        ∨ (Ring.calculateFees base spendableFee p prevP).2.feeAmountB = 0) := by
  clear hok
  unfold Ring.calculateFees
  simp only [hP2P, Bool.false_eq_true, if_false]
  split_ifs with h1 h2 h3
    <;> simp [marginCheck_fees, Ring.reserveAmountFee]

/-- Claim C6 witness: a non-P2P order with `feeAmount = 10` filled halfway
survives `calculateFees` with `feeAmountS = 0` and the fee paid in
`feeToken` only. -/
theorem calculateFees_fee_mode_witness :
    (Ring.calculateFees 1000 10
        { order := { owner := "a", tokenS := "X", tokenB := "Y",
                     feeToken := "F", amountS := 100, amountB := 100,
                     feeAmount := 10 }
          fillAmountS := 50, fillAmountB := 50 }
        { order := {}, fillAmountB := 50 }).1 = true
    ∧ ((Ring.calculateFees 1000 10
        { order := { owner := "a", tokenS := "X", tokenB := "Y",
                     feeToken := "F", amountS := 100, amountB := 100,
                     feeAmount := 10 }
          fillAmountS := 50, fillAmountB := 50 }
        { order := {}, fillAmountB := 50 }).2.feeAmountS = 0
      ∧ ((Ring.calculateFees 1000 10
          { order := { owner := "a", tokenS := "X", tokenB := "Y",
                       feeToken := "F", amountS := 100, amountB := 100,
                       feeAmount := 10 }
            fillAmountS := 50, fillAmountB := 50 }
          { order := {}, fillAmountB := 50 }).2.feeAmount = 0
        ∨ (Ring.calculateFees 1000 10
            { order := { owner := "a", tokenS := "X", tokenB := "Y",
                         feeToken := "F", amountS := 100, amountB := 100,
                         feeAmount := 10 }
              fillAmountS := 50, fillAmountB := 50 }
            { order := {}, fillAmountB := 50 }).2.feeAmountB = 0)) :=
  ⟨by decide,
   calculateFees_fee_mode 1000 10
     { order := { owner := "a", tokenS := "X", tokenB := "Y",
                  feeToken := "F", amountS := 100, amountB := 100,
                  feeAmount := 10 }
       fillAmountS := 50, fillAmountB := 50 }
     { order := {}, fillAmountB := 50 } (by decide) (by decide)⟩

/-- Claim C6 counterexample: a non-P2P participation with
`order.feeAmount = 0` survives `calculateFees` (returns `true`) with
`feeAmount = 0` and `feeAmountB = 0` — neither is nonzero, refuting
"exactly one of `feeAmount` and `feeAmountB` is nonzero". -/
theorem calculateFees_both_fees_zero_counterexample :
    (Ring.calculateFees 1000 0
        { order := { owner := "a", tokenS := "X", tokenB := "Y",
                     feeToken := "F", amountS := 100, amountB := 100,
                     feeAmount := 0 }
          fillAmountS := 50, fillAmountB := 50 }
        { order := {}, fillAmountB := 50 }).1 = true
    ∧ (Ring.calculateFees 1000 0
        { order := { owner := "a", tokenS := "X", tokenB := "Y",
                     feeToken := "F", amountS := 100, amountB := 100,
                     feeAmount := 0 }
          fillAmountS := 50, fillAmountB := 50 }
        { order := {}, fillAmountB := 50 }).2.order.P2P = false
    ∧ (Ring.calculateFees 1000 0
        { order := { owner := "a", tokenS := "X", tokenB := "Y",
                     feeToken := "F", amountS := 100, amountB := 100,
                     feeAmount := 0 }
          fillAmountS := 50, fillAmountB := 50 }
        { order := {}, fillAmountB := 50 }).2.feeAmount = 0
    ∧ (Ring.calculateFees 1000 0
        { order := { owner := "a", tokenS := "X", tokenB := "Y",
                     feeToken := "F", amountS := 100, amountB := 100,
                     feeAmount := 0 }
          fillAmountS := 50, fillAmountB := 50 }
        { order := {}, fillAmountB := 50 }).2.feeAmountB = 0 := by
  refine ⟨by decide, by decide, by decide, by decide⟩

/-! ## Claim C7 — ERC1400 margin suppression in `transferTokens` -/

/-- Claim C7 (confirmed): when `tokenTypeS == ERC1400` the margin transfer
is suppressed: the emitted transfers do not depend on `splitS` at all (the
participation behaves as if `splitS = 0`), and the margin
`addTokenTransfer` call — whose amount is forced to `0` — emits nothing. -/
theorem transferTokens_margin_suppressed (canSendF : CanSendFn)
    (feeHolder feeRecipient : String) (p prevP : Participation)
    (h : p.order.tokenTypeS = TokenType.ERC1400) :
    Ring.transferTokensForParticipation canSendF feeHolder feeRecipient p prevP
      = Ring.transferTokensForParticipation canSendF feeHolder feeRecipient
          { p with splitS := 0 } prevP
    ∧ Ring.addTokenTransfer canSendF p.order.tokenTypeS p.order.trancheS
        p.order.tokenS p.order.owner feeRecipient
        (if p.order.tokenTypeS = TokenType.ERC1400 then 0 else p.splitS)
        p.order.transferDataS = Except.ok none := by
  constructor
  · unfold Ring.transferTokensForParticipation
    simp [h]
  · rw [if_pos h]
    simp [Ring.addTokenTransfer]

/-- Claim C7 witness: a concrete ERC1400 participation with `splitS = 7`
emits the same transfers as with `splitS = 0`, and its margin call emits
nothing. -/
theorem transferTokens_margin_suppressed_witness :
    Ring.transferTokensForParticipation
        (fun _ _ _ _ _ => ("0xa1", "trD")) "fh" "fr"
        { order := { owner := "a", tokenRecipient := "a", tokenS := "X",
                     tokenB := "Y", feeToken := "F",
                     tokenTypeS := TokenType.ERC1400, trancheS := "trS" }
          fillAmountS := 50, fillAmountB := 50, splitS := 7 }
        { order := { owner := "b", tokenRecipient := "b" }, fillAmountB := 50 }
      = Ring.transferTokensForParticipation
          (fun _ _ _ _ _ => ("0xa1", "trD")) "fh" "fr"
          { order := { owner := "a", tokenRecipient := "a", tokenS := "X",
                       tokenB := "Y", feeToken := "F",
                       tokenTypeS := TokenType.ERC1400, trancheS := "trS" }
            fillAmountS := 50, fillAmountB := 50, splitS := 0 }
          { order := { owner := "b", tokenRecipient := "b" }, fillAmountB := 50 }
    ∧ Ring.addTokenTransfer (fun _ _ _ _ _ => ("0xa1", "trD"))
        TokenType.ERC1400 "trS" "X" "a" "fr" 0 none = Except.ok none := by
  constructor
  · exact (transferTokens_margin_suppressed
      (fun _ _ _ _ _ => ("0xa1", "trD")) "fh" "fr"
      { order := { owner := "a", tokenRecipient := "a", tokenS := "X",
                   tokenB := "Y", feeToken := "F",
                   tokenTypeS := TokenType.ERC1400, trancheS := "trS" }
        fillAmountS := 50, fillAmountB := 50, splitS := 7 }
      { order := { owner := "b", tokenRecipient := "b" }, fillAmountB := 50 }
      (by decide)).1
  · exact (transferTokens_margin_suppressed
      (fun _ _ _ _ _ => ("0xa1", "trD")) "fh" "fr"
      { order := { owner := "a", tokenRecipient := "a", tokenS := "X",
                   tokenB := "Y", feeToken := "F",
                   tokenTypeS := TokenType.ERC1400, trancheS := "trS" }
        fillAmountS := 50, fillAmountB := 50, splitS := 0 }
      { order := { owner := "b", tokenRecipient := "b" }, fillAmountB := 50 }
      (by decide)).2

/-! ## Claim C10 — invalid ring: `calculateFillAmountAndFee` is a no-op -/

/-- Claim C10 (confirmed): a ring whose `valid` flag is false when
`calculateFillAmountAndFee` is called is returned unchanged (first
conjunct: for any state; remaining conjuncts: on the state actually reached
through the constructor and the two validity checks, every participation
still has all fill, split and fee amounts at zero, no reservation has been
made, and `minerFeesToOrdersPercentage` is still `0`). -/
theorem calculateFillAmountAndFee_invalid_frame (base : Int)
    (gS gF gF2 : Nat → Int) (cs : CanSendFn) (orders : List OrderInfo)
    (h : (Ring.checkForSubRings
        (Ring.checkOrdersValid (Ring.new orders))).valid = false) :
    (∀ st : RingState, st.valid = false →
        Ring.calculateFillAmountAndFee base gS gF gF2 cs st = st)
    ∧ Ring.calculateFillAmountAndFee base gS gF gF2 cs
        (Ring.checkForSubRings (Ring.checkOrdersValid (Ring.new orders)))
      = Ring.checkForSubRings (Ring.checkOrdersValid (Ring.new orders))
    ∧ (∀ p ∈ (Ring.checkForSubRings
          (Ring.checkOrdersValid (Ring.new orders))).parts,
        p.fillAmountS = 0 ∧ p.fillAmountB = 0 ∧ p.splitS = 0
        ∧ p.feeAmount = 0 ∧ p.feeAmountS = 0 ∧ p.feeAmountB = 0
        ∧ p.ringSpendableS = 0 ∧ p.ringSpendableFee = 0)
    ∧ (Ring.checkForSubRings
        (Ring.checkOrdersValid (Ring.new orders))).minerFeesToOrdersPercentage
      = 0 := by
  have hframe : ∀ st : RingState, st.valid = false →
      Ring.calculateFillAmountAndFee base gS gF gF2 cs st = st := by
    intro st hst
    unfold Ring.calculateFillAmountAndFee
    simp [hst]
  refine ⟨hframe, hframe _ h, ?_, rfl⟩
  intro p hp
  have hparts : (Ring.checkForSubRings
      (Ring.checkOrdersValid (Ring.new orders))).parts
      = orders.map Ring.mkParticipation := rfl
  rw [hparts] at hp
  obtain ⟨o, _, rfl⟩ := List.mem_map.mp hp
  exact ⟨rfl, rfl, rfl, rfl, rfl, rfl, rfl, rfl⟩

/-- Claim C10 witness: a one-order ring fails the size check in
`checkOrdersValid`, so `calculateFillAmountAndFee` leaves the state
untouched and all amounts are zero. -/
theorem calculateFillAmountAndFee_invalid_frame_witness :
    Ring.calculateFillAmountAndFee 1000 (fun _ => 5) (fun _ => 5) (fun _ => 5)
        (fun _ _ _ _ _ => ("0xa0", "tr"))
        (Ring.checkForSubRings (Ring.checkOrdersValid
          (Ring.new [{ owner := "a", tokenS := "X", tokenB := "Y",
                       amountS := 10, amountB := 10 }])))
      = Ring.checkForSubRings (Ring.checkOrdersValid
          (Ring.new [{ owner := "a", tokenS := "X", tokenB := "Y",
                       amountS := 10, amountB := 10 }]))
    ∧ (Ring.checkForSubRings (Ring.checkOrdersValid
        (Ring.new [{ owner := "a", tokenS := "X", tokenB := "Y",
                     amountS := 10, amountB := 10 }]))).minerFeesToOrdersPercentage
      = 0 :=
  ⟨(calculateFillAmountAndFee_invalid_frame 1000 (fun _ => 5) (fun _ => 5)
      (fun _ => 5) (fun _ _ _ _ _ => ("0xa0", "tr"))
      [{ owner := "a", tokenS := "X", tokenB := "Y",
         amountS := 10, amountB := 10 }] (by decide)).2.1,
   (calculateFillAmountAndFee_invalid_frame 1000 (fun _ => 5) (fun _ => 5)
      (fun _ => 5) (fun _ _ _ _ _ => ("0xa0", "tr"))
      [{ owner := "a", tokenS := "X", tokenB := "Y",
         amountS := 10, amountB := 10 }] (by decide)).2.2.2⟩

/-! ## Claim C1 — ring closure after `calculateFillAmountAndFee` -/

theorem prevIdx_lt (n i : Nat) (hn : 0 < n) : prevIdx n i < n :=
  Nat.mod_lt _ hn

theorem getD_set_self (l : List Participation) (i : Nat) (a d : Participation)
    (h : i < l.length) : (l.set i a).getD i d = a := by
  rw [List.getD_eq_getElem?_getD, List.getElem?_set_eq_of_lt _ h]
  rfl

theorem getD_set_ne (l : List Participation) (i j : Nat) (a d : Participation)
    (hij : i ≠ j) : (l.set i a).getD j d = l.getD j d := by
  rw [List.getD_eq_getElem?_getD, List.getElem?_set_ne hij,
    ← List.getD_eq_getElem?_getD]

theorem marginCheck_fillAmountB (a b : Participation) :
    (Ring.marginCheck a b).2.fillAmountB = a.fillAmountB := by
  unfold Ring.marginCheck
  split <;> rfl

theorem marginCheck_closure (a b : Participation)
    (h : (Ring.marginCheck a b).1 = true) :
    (Ring.marginCheck a b).2.fillAmountS
      = b.fillAmountB + (Ring.marginCheck a b).2.feeAmountS := by
  by_cases hc : b.fillAmountB ≤ a.fillAmountS - a.feeAmountS
  · simp only [Ring.marginCheck, if_pos hc]
  · simp only [Ring.marginCheck, if_neg hc] at h
    exact absurd h (by simp)

theorem calculateFees_fillAmountB (base sf : Int) (p q : Participation) :
    (Ring.calculateFees base sf p q).2.fillAmountB = p.fillAmountB := by
  simp only [Ring.calculateFees, Ring.reserveAmountFee]
  repeat' split
  all_goals simp [marginCheck_fillAmountB]

theorem calculateFees_closure (base sf : Int) (p q : Participation)
    (h : (Ring.calculateFees base sf p q).1 = true) :
    (Ring.calculateFees base sf p q).2.fillAmountS
      = q.fillAmountB + (Ring.calculateFees base sf p q).2.feeAmountS := by
  revert h
  simp only [Ring.calculateFees]
  repeat' split
  all_goals intro h
  all_goals first
    | exact marginCheck_closure _ _ h
    | exact absurd h (by simp)

theorem resize_length (base : Int) (parts : List Participation)
    (i s : Nat) : (Ring.resize base parts i s).1.length = parts.length := by
  simp only [Ring.resize]
  repeat' split
  all_goals simp

theorem resizeLoop1_length (base : Int) (l : List Nat)
    (acc : List Participation × Nat) :
    (l.foldl (fun acc i => Ring.resize base acc.1 i acc.2) acc).1.length
      = acc.1.length := by
  induction l generalizing acc with
  | nil => rfl
  | cons a l ih =>
    simp only [List.foldl_cons]
    rw [ih]
    exact resize_length base acc.1 a acc.2

theorem resizeLoop2_length (base : Int) (s : Nat) (l : List Nat)
    (ps : List Participation) :
    (l.foldl (fun ps i => (Ring.resize base ps i s).1) ps).length
      = ps.length := by
  induction l generalizing ps with
  | nil => rfl
  | cons a l ih =>
    simp only [List.foldl_cons]
    rw [ih]
    exact resize_length base ps a s

theorem feesStep_length (base : Int) (gF2 : Nat → Int) (cs : CanSendFn)
    (st : RingState) (i : Nat) :
    (Ring.feesStep base gF2 cs st i).parts.length = st.parts.length := by
  simp only [Ring.feesStep]
  exact List.length_set ..

theorem feesStep_other (base : Int) (gF2 : Nat → Int) (cs : CanSendFn)
    (st : RingState) (i j : Nat) (hij : j ≠ i) :
    (Ring.feesStep base gF2 cs st i).parts[j]? = st.parts[j]? := by
  simp only [Ring.feesStep]
  exact List.getElem?_set_ne (fun hh => hij hh.symm)

theorem feesStep_self (base : Int) (gF2 : Nat → Int) (cs : CanSendFn)
    (st : RingState) (i : Nat) (hi : i < st.parts.length) :
    (Ring.feesStep base gF2 cs st i).parts[i]?
      = some (Ring.calculateFees base (gF2 i) (st.parts.getD i default)
          (st.parts.getD (prevIdx st.parts.length i) default)).2 := by
  simp only [Ring.feesStep]
  exact List.getElem?_set_eq_of_lt _ hi

theorem feesStep_fillAmountB_getD (base : Int) (gF2 : Nat → Int)
    (cs : CanSendFn) (st : RingState) (i k : Nat) :
    ((Ring.feesStep base gF2 cs st i).parts.getD k default).fillAmountB
      = (st.parts.getD k default).fillAmountB := by
  by_cases hik : k = i
  · subst hik
    by_cases hk : k < st.parts.length
    · rw [List.getD_eq_getElem?_getD, feesStep_self base gF2 cs st k hk]
      rw [Option.getD_some, calculateFees_fillAmountB]
    · have hle : st.parts.length ≤ k := Nat.le_of_not_lt hk
      rw [List.getD_eq_getElem?_getD, List.getD_eq_getElem?_getD]
      rw [List.getElem?_eq_none hle, List.getElem?_eq_none
        (by rw [feesStep_length]; exact hle)]
  · rw [List.getD_eq_getElem?_getD, List.getD_eq_getElem?_getD,
      feesStep_other base gF2 cs st i k hik]

theorem feesStep_valid_mono (base : Int) (gF2 : Nat → Int) (cs : CanSendFn)
    (st : RingState) (i : Nat)
    (h : (Ring.feesStep base gF2 cs st i).valid = true) : st.valid = true := by
  simp only [Ring.feesStep] at h
  rw [Bool.and_eq_true] at h
  rcases h with ⟨h1, _⟩
  split at h1
  · rw [Bool.and_eq_true] at h1
    rcases h1 with ⟨h2, _⟩
    rw [Bool.and_eq_true] at h2
    exact h2.1
  · exact h1

theorem feesStep_ok (base : Int) (gF2 : Nat → Int) (cs : CanSendFn)
    (st : RingState) (i : Nat)
    (h : (Ring.feesStep base gF2 cs st i).valid = true) :
    (Ring.calculateFees base (gF2 i) (st.parts.getD i default)
      (st.parts.getD (prevIdx st.parts.length i) default)).1 = true := by
  simp only [Ring.feesStep] at h
  rw [Bool.and_eq_true] at h
  exact h.2

theorem feesStep_established (base : Int) (gF2 : Nat → Int) (cs : CanSendFn)
    (st : RingState) (i : Nat) (hi : i < st.parts.length)
    (h : (Ring.feesStep base gF2 cs st i).valid = true) :
    closureAt (Ring.feesStep base gF2 cs st i) i := by
  have hok := feesStep_ok base gF2 cs st i h
  have hcl := calculateFees_closure base (gF2 i) (st.parts.getD i default)
    (st.parts.getD (prevIdx st.parts.length i) default) hok
  unfold closureAt
  rw [feesStep_length]
  have hself : (Ring.feesStep base gF2 cs st i).parts.getD i default
      = (Ring.calculateFees base (gF2 i) (st.parts.getD i default)
          (st.parts.getD (prevIdx st.parts.length i) default)).2 := by
    rw [List.getD_eq_getElem?_getD, feesStep_self base gF2 cs st i hi]
    rfl
  rw [hself]
  have hprevB : ((Ring.feesStep base gF2 cs st i).parts.getD
        (prevIdx st.parts.length i) default).fillAmountB
      = (st.parts.getD (prevIdx st.parts.length i) default).fillAmountB :=
    feesStep_fillAmountB_getD base gF2 cs st i (prevIdx st.parts.length i)
  rw [hprevB, hcl]
  ring

theorem feesStep_preserved (base : Int) (gF2 : Nat → Int) (cs : CanSendFn)
    (st : RingState) (i j : Nat) (hij : j ≠ i)
    (h : closureAt st j) : closureAt (Ring.feesStep base gF2 cs st i) j := by
  unfold closureAt at h ⊢
  rw [feesStep_length]
  have hj : (Ring.feesStep base gF2 cs st i).parts.getD j default
      = st.parts.getD j default := by
    rw [List.getD_eq_getElem?_getD, feesStep_other base gF2 cs st i j hij,
      ← List.getD_eq_getElem?_getD]
  rw [hj, feesStep_fillAmountB_getD]
  exact h

theorem feesLoop_valid_mono (base : Int) (gF2 : Nat → Int) (cs : CanSendFn) :
    ∀ (l : List Nat) (st : RingState),
      (l.foldl (Ring.feesStep base gF2 cs) st).valid = true →
      st.valid = true := by
  intro l
  induction l with
  | nil => intro st h; exact h
  | cons a l ih =>
    intro st h
    simp only [List.foldl_cons] at h
    exact feesStep_valid_mono base gF2 cs st a (ih _ h)

theorem feesLoop_length (base : Int) (gF2 : Nat → Int) (cs : CanSendFn) :
    ∀ (l : List Nat) (st : RingState),
      (l.foldl (Ring.feesStep base gF2 cs) st).parts.length
        = st.parts.length := by
  intro l
  induction l with
  | nil => intro st; rfl
  | cons a l ih =>
    intro st
    simp only [List.foldl_cons]
    rw [ih, feesStep_length]

theorem feesLoop_preserved (base : Int) (gF2 : Nat → Int) (cs : CanSendFn) :
    ∀ (l : List Nat) (st : RingState) (i : Nat), i ∉ l →
      closureAt st i →
      closureAt (l.foldl (Ring.feesStep base gF2 cs) st) i := by
  intro l
  induction l with
  | nil => intro st i _ h; exact h
  | cons a l ih =>
    intro st i hni h
    simp only [List.mem_cons, not_or] at hni
    simp only [List.foldl_cons]
    exact ih _ i hni.2 (feesStep_preserved base gF2 cs st a i hni.1 h)

theorem feesLoop_closure (base : Int) (gF2 : Nat → Int) (cs : CanSendFn) :
    ∀ (l : List Nat) (st : RingState), l.Nodup →
      (∀ j ∈ l, j < st.parts.length) →
      (l.foldl (Ring.feesStep base gF2 cs) st).valid = true →
      ∀ i ∈ l, closureAt (l.foldl (Ring.feesStep base gF2 cs) st) i := by
  intro l
  induction l with
  | nil => intro st _ _ _ i hi; simp at hi
  | cons a l ih =>
    intro st hnd hbound hval i hi
    rw [List.nodup_cons] at hnd
    simp only [List.foldl_cons] at hval ⊢
    rcases List.mem_cons.mp hi with hia | hil
    · subst hia
      have hstep_valid : (Ring.feesStep base gF2 cs st i).valid = true :=
        feesLoop_valid_mono base gF2 cs l _ hval
      have hest := feesStep_established base gF2 cs st i
        (hbound i (List.mem_cons_self i l)) hstep_valid
      exact feesLoop_preserved base gF2 cs l _ i hnd.1 hest
    · refine ih (Ring.feesStep base gF2 cs st a) hnd.2 ?_ hval i hil
      intro j hj
      rw [feesStep_length]
      exact hbound j (List.mem_cons_of_mem a hj)

theorem closureAt_of_parts_map (f : Participation → Participation)
    (hS : ∀ p, (f p).fillAmountS = p.fillAmountS)
    (hF : ∀ p, (f p).feeAmountS = p.feeAmountS)
    (hB : ∀ p, (f p).fillAmountB = p.fillAmountB)
    (st st2 : RingState) (hparts : st2.parts = st.parts.map f) (i : Nat)
    (hi : i < st.parts.length) (h : closureAt st i) : closureAt st2 i := by
  unfold closureAt at h ⊢
  rw [hparts, List.length_map]
  have hget : ∀ k, k < st.parts.length →
      (st.parts.map f).getD k default = f (st.parts.getD k default) := by
    intro k hk
    have hk2 : k < (st.parts.map f).length := by simpa using hk
    rw [List.getD_eq_getElem _ _ hk2, List.getD_eq_getElem _ _ hk,
      List.getElem_map]
  have hn : 0 < st.parts.length := Nat.lt_of_le_of_lt (Nat.zero_le i) hi
  rw [hget i hi, hget (prevIdx st.parts.length i)
    (prevIdx_lt st.parts.length i hn), hS, hF, hB]
  exact h

/-- Claim C1 (confirmed): whenever `calculateFillAmountAndFee` finishes
with `valid` still true, every participation `i` with cyclic predecessor
`prevIdx` satisfies the ring-closure equation
`fillAmountS − feeAmountS = prevP.fillAmountB`.  Quantified over all oracle
answers for the awaited chain reads. -/
theorem calculateFillAmountAndFee_ring_closure (base : Int)
    (gS gF gF2 : Nat → Int) (cs : CanSendFn) (st : RingState) (i : Nat)
    (hval : (Ring.calculateFillAmountAndFee base gS gF gF2 cs st).valid = true)
    (hi : i < (Ring.calculateFillAmountAndFee base gS gF gF2 cs st).parts.length) :
    closureAt (Ring.calculateFillAmountAndFee base gS gF gF2 cs st) i := by
  by_cases hv : st.valid = true
  all_goals
    simp only [Ring.calculateFillAmountAndFee] at hval hi ⊢
  case neg =>
    rw [if_neg hv] at hval
    exact absurd hval hv
  rw [if_pos hv] at hval hi ⊢
  set n := st.parts.length with hn
  set parts1 := st.parts.mapIdx
    (fun i p => Ring.setMaxFillAmounts (gS i) (gF i) p) with hparts1
  set rs := (List.range n).reverse.foldl
    (fun acc i => Ring.resize base acc.1 i acc.2) (parts1, 0) with hrs
  set parts2 := ((List.range n).reverse.filter (fun i => rs.2 ≤ i)).foldl
    (fun ps i => (Ring.resize base ps i rs.2).1) rs.1 with hparts2
  set st1 : RingState :=
    { parts := parts2.map Ring.reserveAmountS
      valid := st.valid
      minerFeesToOrdersPercentage := st.minerFeesToOrdersPercentage }
    with hst1
  set st2 := (List.range n).foldl (Ring.feesStep base gF2 cs) st1 with hst2
  have hlen1 : st1.parts.length = n := by
    rw [hst1]
    simp only [List.length_map]
    rw [hparts2, resizeLoop2_length, hrs, resizeLoop1_length, hparts1]
    simp [hn]
  have hlen2 : st2.parts.length = n := by
    rw [hst2, feesLoop_length, hlen1]
  have hival : st2.valid = true := by
    rw [Bool.and_eq_true] at hval
    exact hval.1
  have hin : i < n := by
    simpa [hlen2] using hi
  have hclosure : closureAt st2 i := by
    refine feesLoop_closure base gF2 cs (List.range n) st1
      (List.nodup_range n) ?_ ?_ i (List.mem_range.mpr hin)
    · intro j hj
      rw [hlen1]
      exact List.mem_range.mp hj
    · rw [← hst2]
      exact hival
  have hclosure3 : closureAt
      { parts := st2.parts
        valid := st2.valid && decide (st2.minerFeesToOrdersPercentage ≤ base)
        minerFeesToOrdersPercentage := st2.minerFeesToOrdersPercentage } i := by
    unfold closureAt at hclosure ⊢
    exact hclosure
  refine closureAt_of_parts_map Ring.resetReservations
    (fun p => rfl) (fun p => rfl) (fun p => rfl)
    _ _ rfl i ?_ hclosure3
  simpa [hlen2] using hi

/-- Claim C1 witness: the spec's minimal two-order ring S1 (1000 X for
1000 Y against 1000 Y for 1000 X, no fees, full spendables) finishes valid
and satisfies ring closure at index 0. -/
theorem calculateFillAmountAndFee_ring_closure_witness :
    closureAt
      (Ring.calculateFillAmountAndFee 1000 (fun _ => 1000) (fun _ => 0)
        (fun _ => 0) (fun _ _ _ _ _ => ("0xa0", ""))
        (Ring.new [
          { owner := "a", tokenRecipient := "a", tokenS := "X", tokenB := "Y",
            feeToken := "FT", amountS := 1000, amountB := 1000, feeAmount := 0 },
          { owner := "b", tokenRecipient := "b", tokenS := "Y", tokenB := "X",
            feeToken := "FT", amountS := 1000, amountB := 1000,
            feeAmount := 0 }])) 0 :=
  calculateFillAmountAndFee_ring_closure 1000 (fun _ => 1000) (fun _ => 0)
    (fun _ => 0) (fun _ _ _ _ _ => ("0xa0", ""))
    (Ring.new [
      { owner := "a", tokenRecipient := "a", tokenS := "X", tokenB := "Y",
        feeToken := "FT", amountS := 1000, amountB := 1000, feeAmount := 0 },
      { owner := "b", tokenRecipient := "b", tokenS := "Y", tokenB := "X",
        feeToken := "FT", amountS := 1000, amountB := 1000, feeAmount := 0 }])
    0 (by decide) (by decide)

/-! ## Claim C5 — termination and iteration bound of `checkRings` -/

theorem modifyIdx_countValid (d : Int) (i : Nat) (l : List OrderInfo) :
    countValid (modifyIdx
      (fun o => { o with filledAmountS := o.filledAmountS - d }) i l)
      = countValid l := by
  induction l generalizing i with
  | nil => cases i <;> rfl
  | cons a as ih =>
    cases i with
    | zero => simp [modifyIdx, countValid, List.countP_cons]
    | succ n =>
      simp only [modifyIdx, countValid, List.countP_cons] at *
      rw [ih n]

namespace ProtocolSimulator

theorem ringRevertOrderStats_countValid (parts : List SimParticipation)
    (os : List OrderInfo) :
    countValid (ringRevertOrderStats os parts) = countValid os := by
  induction parts generalizing os with
  | nil => rfl
  | cons p ps ih =>
    unfold ringRevertOrderStats at ih ⊢
    simp only [List.foldl_cons]
    rw [ih, modifyIdx_countValid]

theorem reevaluateRings_countValid (rings : List SimRing)
    (os : List OrderInfo) :
    countValid (reevaluateRings os rings).1 = countValid os := by
  induction rings generalizing os with
  | nil => rfl
  | cons r rs ih =>
    unfold reevaluateRings
    simp only
    rw [ih]
    split
    · exact ringRevertOrderStats_countValid r.parts os
    · rfl

theorem aonPass_unchanged_of_no_valid (orders : List OrderInfo)
    (h : countValid orders = 0) : orders.any aonChanged = false := by
  by_contra hc
  rw [Bool.not_eq_false, List.any_eq_true] at hc
  obtain ⟨o, ho, hco⟩ := hc
  rw [aonChanged_eq] at hco
  simp only [Bool.and_eq_true] at hco
  have hpos : 0 < countValid orders := by
    unfold countValid
    rw [List.countP_pos_iff]
    exact ⟨o, ho, hco.1.2⟩
  omega

theorem checkRingsAux_le_aux :
    ∀ (k : Nat) (orders : List OrderInfo) (rings : List SimRing),
      countValid orders ≤ k →
      (checkRingsAux orders rings).2 ≤ countValid orders + 1 := by
  intro k
  induction k with
  | zero =>
    intro orders rings hk
    have h0 : countValid orders = 0 := Nat.le_zero.mp hk
    have hch : orders.any aonChanged = false :=
      aonPass_unchanged_of_no_valid orders h0
    rw [checkRingsAux, dif_neg (by simp [aonPass, hch])]
    omega
  | succ k ih =>
    intro orders rings hk
    by_cases hch : (aonPass orders).2 = true
    · rw [checkRingsAux, dif_pos hch]
      have hlt : countValid
          (reevaluateRings (aonPass orders).1 rings).1 < countValid orders := by
        rw [reevaluateRings_countValid]
        exact countValid_aonStep_lt orders (by simpa [aonPass] using hch)
      have hrec := ih (reevaluateRings (aonPass orders).1 rings).1
        (reevaluateRings (aonPass orders).1 rings).2 (by omega)
      simp only
      omega
    · rw [checkRingsAux, dif_neg hch]
      omega

end ProtocolSimulator

/-- Claim C5 (amended): the all-or-none loop of `checkRings` always
terminates (`checkRingsAux` is total by construction) and executes its
body at most `|orders| + 1` times: every body execution that continues the
loop strictly shrinks the set of valid orders, so at most
`countValid orders ≤ |orders|` continuing executions happen, plus the final
non-continuing one. -/
theorem checkRings_iterations_le (orders : List OrderInfo)
    (rings : List ProtocolSimulator.SimRing) :
    (ProtocolSimulator.checkRingsAux orders rings).2 ≤ orders.length + 1 := by
  have h := ProtocolSimulator.checkRingsAux_le_aux (countValid orders)
    orders rings (Nat.le_refl _)
  have h2 : countValid orders ≤ orders.length := List.countP_le_length _
  omega

/-- Claim C5 counterexample: a single valid all-or-none order that is not
completely filled makes the loop body run twice — once flipping the order
to invalid and once confirming the fixed point — exceeding the claimed
bound of `|orders| = 1` iterations. -/
theorem checkRings_iterations_counterexample :
    (ProtocolSimulator.checkRingsAux
        [{ allOrNone := true, valid := true, amountS := 1 }] []).2 = 2
    ∧ ¬ ((ProtocolSimulator.checkRingsAux
        [{ allOrNone := true, valid := true, amountS := 1 }] []).2
      ≤ ([{ allOrNone := true, valid := true, amountS := 1 }] :
          List OrderInfo).length) := by
  have hinner : (ProtocolSimulator.checkRingsAux
      [{ allOrNone := true, valid := false, amountS := 1 }]
      ([] : List ProtocolSimulator.SimRing)).2 = 1 := by
    rw [ProtocolSimulator.checkRingsAux, dif_neg (by decide)]
  have h1 : (ProtocolSimulator.checkRingsAux
      [{ allOrNone := true, valid := true, amountS := 1 }] []).2 = 2 := by
    rw [ProtocolSimulator.checkRingsAux, dif_pos (by decide)]
    have harg1 : (ProtocolSimulator.reevaluateRings
        (ProtocolSimulator.aonPass
          [{ allOrNone := true, valid := true, amountS := 1 }]).1 []).1
        = [{ allOrNone := true, valid := false, amountS := 1 }] := by decide
    have harg2 : (ProtocolSimulator.reevaluateRings
        (ProtocolSimulator.aonPass
          [{ allOrNone := true, valid := true, amountS := 1 }]).1 []).2
        = ([] : List ProtocolSimulator.SimRing) := by decide
    simp only
    rw [harg1, harg2, hinner]
  refine ⟨h1, ?_⟩
  rw [h1]
  decide

/-! ## Claim C4 — all-or-none globality -/

theorem getD_map_of_lt {α β : Type} [Inhabited α] [Inhabited β]
    (f : α → β) (l : List α) (k : Nat) (hk : k < l.length) :
    (l.map f).getD k default = f (l.getD k default) := by
  have hk2 : k < (l.map f).length := by simpa using hk
  rw [List.getD_eq_getElem _ _ hk2, List.getD_eq_getElem _ _ hk,
    List.getElem_map]

theorem getD_mem {α : Type} [Inhabited α] (l : List α) (k : Nat)
    (hk : k < l.length) : l.getD k default ∈ l := by
  rw [List.getD_eq_getElem _ _ hk]
  exact List.getElem_mem ..

theorem foldl_and3_eq_true {α : Type} (g1 g2 g3 : α → Bool) (l : List α)
    (v0 : Bool)
    (h : l.foldl (fun v i => v && g1 i && g2 i && g3 i) v0 = true) :
    v0 = true ∧ ∀ i ∈ l, g1 i = true := by
  induction l generalizing v0 with
  | nil => exact ⟨h, by simp⟩
  | cons a as ih =>
    simp only [List.foldl_cons] at h
    obtain ⟨hv, hall⟩ := ih _ h
    repeat rw [Bool.and_eq_true] at hv
    refine ⟨hv.1.1.1, ?_⟩
    intro i hi
    rcases List.mem_cons.mp hi with hrfl | hi
    · subst hrfl
      exact hv.1.1.2
    · exact hall i hi

namespace ProtocolSimulator

theorem aonStep_keeps (o : OrderInfo) :
    (aonStep o).allOrNone = o.allOrNone
    ∧ (aonStep o).filledAmountS = o.filledAmountS
    ∧ (aonStep o).amountS = o.amountS := by
  rw [aonStep_eq]
  exact validateAllOrNone_keeps o

theorem ringCheckOrdersValid_sound (os : List OrderInfo) (r : SimRing)
    (h : (ringCheckOrdersValid os r).valid = true) :
    r.valid = true
    ∧ ∀ p ∈ r.parts, (os.getD p.orderIdx default).valid = true := by
  simp only [ringCheckOrdersValid] at h
  obtain ⟨hv0, hall⟩ := foldl_and3_eq_true _ _ _ _ _ h
  rw [Bool.and_eq_true] at hv0
  refine ⟨hv0.1, ?_⟩
  intro p hp
  obtain ⟨i, hi, hpi⟩ := List.mem_iff_getElem.mp hp
  have := hall i (List.mem_range.mpr hi)
  rw [List.getD_eq_getElem _ _ hi, hpi] at this
  exact this

theorem ringCheckOrdersValid_invalid (os : List OrderInfo) (r : SimRing)
    (h : r.valid = false) : (ringCheckOrdersValid os r).valid = false := by
  by_cases hc : (ringCheckOrdersValid os r).valid = true
  · have := (ringCheckOrdersValid_sound os r hc).1
    rw [h] at this
    exact absurd this (by simp)
  · exact Bool.not_eq_true _ |>.mp hc

theorem ringRevertOrderStats_filled_getD (parts : List SimParticipation)
    (os : List OrderInfo) (k : Nat) (hk : k < os.length) :
    ((ringRevertOrderStats os parts).getD k default).filledAmountS
      = (os.getD k default).filledAmountS
        - (parts.map (partContrib k)).sum := by
  rw [List.getD_eq_getElem?_getD, ringRevertOrderStats_getElem? parts os k,
    List.getElem?_eq_getElem hk]
  simp only [Option.map_some', Option.getD_some]
  rw [List.getD_eq_getElem _ _ hk]

theorem ringRevertOrderStats_frame_getD (parts : List SimParticipation)
    (os : List OrderInfo) (k : Nat) :
    ((ringRevertOrderStats os parts).getD k default).valid
      = (os.getD k default).valid
    ∧ ((ringRevertOrderStats os parts).getD k default).allOrNone
      = (os.getD k default).allOrNone
    ∧ ((ringRevertOrderStats os parts).getD k default).amountS
      = (os.getD k default).amountS := by
  rw [List.getD_eq_getElem?_getD, List.getD_eq_getElem?_getD,
    ringRevertOrderStats_getElem? parts os k]
  cases os[k]? with
  | none => exact ⟨rfl, rfl, rfl⟩
  | some o => exact ⟨rfl, rfl, rfl⟩

theorem reevaluateRings_orders_length (rings : List SimRing)
    (os : List OrderInfo) :
    (reevaluateRings os rings).1.length = os.length := by
  induction rings generalizing os with
  | nil => rfl
  | cons r rs ih =>
    unfold reevaluateRings
    simp only
    rw [ih]
    split
    · exact ringRevertOrderStats_length r.parts os
    · rfl

theorem reevaluateRings_frame_getD (rings : List SimRing)
    (os : List OrderInfo) (k : Nat) :
    ((reevaluateRings os rings).1.getD k default).valid
      = (os.getD k default).valid
    ∧ ((reevaluateRings os rings).1.getD k default).allOrNone
      = (os.getD k default).allOrNone
    ∧ ((reevaluateRings os rings).1.getD k default).amountS
      = (os.getD k default).amountS := by
  induction rings generalizing os with
  | nil => exact ⟨rfl, rfl, rfl⟩
  | cons r rs ih =>
    unfold reevaluateRings
    simp only
    refine ⟨?_, ?_, ?_⟩
    · rw [(ih _).1]
      split
      · exact (ringRevertOrderStats_frame_getD r.parts os k).1
      · rfl
    · rw [(ih _).2.1]
      split
      · exact (ringRevertOrderStats_frame_getD r.parts os k).2.1
      · rfl
    · rw [(ih _).2.2]
      split
      · exact (ringRevertOrderStats_frame_getD r.parts os k).2.2
      · rfl

theorem reevaluateRings_rings_parts (rings : List SimRing)
    (os : List OrderInfo) :
    (reevaluateRings os rings).2.map (fun r => r.parts)
      = rings.map (fun r => r.parts) := by
  induction rings generalizing os with
  | nil => rfl
  | cons r rs ih =>
    unfold reevaluateRings
    simp only [List.map_cons]
    rw [ih]
    rfl

theorem totalContrib_cons (k : Nat) (r : SimRing) (rs : List SimRing) :
    totalContrib k (r :: rs) = ringContrib k r + totalContrib k rs := by
  simp [totalContrib]

theorem ringContrib_check (k : Nat) (os : List OrderInfo) (r : SimRing)
    (hv : (ringCheckOrdersValid os r).valid = true) :
    ringContrib k (ringCheckOrdersValid os r)
      = (r.parts.map (partContrib k)).sum := by
  unfold ringContrib
  rw [if_pos hv, ringCheckOrdersValid_parts]

theorem ringContrib_invalid (k : Nat) (r : SimRing) (hv : r.valid = false) :
    ringContrib k r = 0 := by
  unfold ringContrib
  rw [if_neg (by simp [hv])]

theorem reevaluateRings_idxwf (rings : List SimRing) (os : List OrderInfo)
    (h : IdxWf os rings) :
    IdxWf (reevaluateRings os rings).1 (reevaluateRings os rings).2 := by
  intro r1 hr1 p hp
  rw [reevaluateRings_orders_length]
  have hmem : r1.parts ∈ (reevaluateRings os rings).2.map (fun r => r.parts) :=
    List.mem_map_of_mem _ hr1
  rw [reevaluateRings_rings_parts] at hmem
  obtain ⟨r, hr, hparts⟩ := List.mem_map.mp hmem
  exact h r hr p (by rw [hparts]; exact hp)

theorem reevaluateRings_contribNonneg (rings : List SimRing)
    (os : List OrderInfo) (h : ContribNonneg rings) :
    ContribNonneg (reevaluateRings os rings).2 := by
  intro r1 hr1 p hp
  have hmem : r1.parts ∈ (reevaluateRings os rings).2.map (fun r => r.parts) :=
    List.mem_map_of_mem _ hr1
  rw [reevaluateRings_rings_parts] at hmem
  obtain ⟨r, hr, hparts⟩ := List.mem_map.mp hmem
  exact h r hr p (by rw [hparts]; exact hp)

theorem reevaluateRings_sound (rings : List SimRing) (os : List OrderInfo) :
    ValidSound (reevaluateRings os rings).1 (reevaluateRings os rings).2 := by
  induction rings generalizing os with
  | nil =>
    intro r hr
    simp [reevaluateRings] at hr
  | cons r rs ih =>
    intro r1 hr1 hv1 p hp
    unfold reevaluateRings at hr1 ⊢
    simp only at hr1 ⊢
    rcases List.mem_cons.mp hr1 with hrfl | htail
    · subst hrfl
      have hsound := (ringCheckOrdersValid_sound os r hv1).2 p hp
      rw [(reevaluateRings_frame_getD rs _ p.orderIdx).1]
      split
      · rw [(ringRevertOrderStats_frame_getD r.parts os p.orderIdx).1]
        exact hsound
      · exact hsound
    · exact ih _ r1 htail hv1 p hp

theorem reevaluateRings_inv_aux (rings : List SimRing) :
    ∀ (os : List OrderInfo) (c : Nat → Int),
      IdxWf os rings →
      (∀ k, k < os.length →
        (os.getD k default).filledAmountS = c k + totalContrib k rings) →
      ∀ k, k < (reevaluateRings os rings).1.length →
        ((reevaluateRings os rings).1.getD k default).filledAmountS
          = c k + totalContrib k (reevaluateRings os rings).2 := by
  induction rings with
  | nil =>
    intro os c _ hInv k hk
    have hk2 : k < os.length := hk
    have := hInv k hk2
    simpa [reevaluateRings, totalContrib] using this
  | cons r rs ih =>
    intro os c hIdx hInv k hk
    unfold reevaluateRings at hk ⊢
    simp only at hk ⊢
    by_cases hcond : (r.valid && !(ringCheckOrdersValid os r).valid) = true
    · rw [if_pos hcond] at hk ⊢
      rw [Bool.and_eq_true, Bool.not_eq_true'] at hcond
      obtain ⟨hrv, hr1v⟩ := hcond
      have hstep := ih (ringRevertOrderStats os r.parts) c ?_ ?_ k hk
      · rw [hstep, totalContrib_cons, ringContrib_invalid k _ hr1v]
        omega
      · intro r2 hr2 p hp
        rw [ringRevertOrderStats_length]
        exact hIdx r2 (List.mem_cons_of_mem r hr2) p hp
      · intro j hj
        have hj2 : j < os.length := by
          rw [ringRevertOrderStats_length] at hj
          exact hj
        rw [ringRevertOrderStats_filled_getD r.parts os j hj2]
        have := hInv j hj2
        rw [totalContrib_cons] at this
        unfold ringContrib at this
        rw [if_pos hrv] at this
        omega
    · rw [if_neg hcond] at hk ⊢
      rw [Bool.and_eq_true, Bool.not_eq_true'] at hcond
      push_neg at hcond
      by_cases hrv : r.valid = true
      · have hr1v : (ringCheckOrdersValid os r).valid = true := by
          by_cases hx : (ringCheckOrdersValid os r).valid = true
          · exact hx
          · exact absurd (Bool.not_eq_true _ |>.mp hx) (hcond hrv)
        have hstep := ih os (fun j => c j + ringContrib j r) ?_ ?_ k hk
        · rw [hstep, totalContrib_cons]
          have hcc : ringContrib k (ringCheckOrdersValid os r)
              = ringContrib k r := by
            rw [ringContrib_check k os r hr1v]
            unfold ringContrib
            rw [if_pos hrv]
          rw [hcc]
          simp only
          omega
        · intro r2 hr2 p hp
          exact hIdx r2 (List.mem_cons_of_mem r hr2) p hp
        · intro j hj
          have := hInv j hj
          rw [totalContrib_cons] at this
          simp only
          omega
      · have hrv2 : r.valid = false := Bool.not_eq_true _ |>.mp hrv
        have hr1v : (ringCheckOrdersValid os r).valid = false :=
          ringCheckOrdersValid_invalid os r hrv2
        have hstep := ih os c ?_ ?_ k hk
        · rw [hstep, totalContrib_cons, ringContrib_invalid k _ hr1v]
          omega
        · intro r2 hr2 p hp
          exact hIdx r2 (List.mem_cons_of_mem r hr2) p hp
        · intro j hj
          have := hInv j hj
          rw [totalContrib_cons, ringContrib_invalid j _ hrv2] at this
          omega

theorem reevaluateRings_filledLe (rings : List SimRing) :
    ∀ (os : List OrderInfo),
      IdxWf os rings → ContribNonneg rings → FilledLe os →
      FilledLe (reevaluateRings os rings).1 := by
  induction rings with
  | nil => intro os _ _ h; exact h
  | cons r rs ih =>
    intro os hIdx hNon hLe k hk
    unfold reevaluateRings at hk ⊢
    simp only at hk ⊢
    by_cases hcond : (r.valid && !(ringCheckOrdersValid os r).valid) = true
    · rw [if_pos hcond] at hk ⊢
      refine ih (ringRevertOrderStats os r.parts) ?_ ?_ ?_ k hk
      · intro r2 hr2 p hp
        rw [ringRevertOrderStats_length]
        exact hIdx r2 (List.mem_cons_of_mem r hr2) p hp
      · intro r2 hr2 p hp
        exact hNon r2 (List.mem_cons_of_mem r hr2) p hp
      · intro j hj
        have hj2 : j < os.length := by
          rw [ringRevertOrderStats_length] at hj
          exact hj
        rw [ringRevertOrderStats_filled_getD r.parts os j hj2,
          (ringRevertOrderStats_frame_getD r.parts os j).2.2]
        have hsum : 0 ≤ (r.parts.map (partContrib j)).sum := by
          apply List.sum_nonneg
          intro x hx
          obtain ⟨p, hp, hpx⟩ := List.mem_map.mp hx
          rw [← hpx]
          unfold partContrib
          split
          · exact hNon r (List.mem_cons_self r rs) p hp
          · exact le_refl 0
        have := hLe j hj2
        omega
    · rw [if_neg hcond] at hk ⊢
      refine ih os ?_ ?_ hLe k hk
      · intro r2 hr2 p hp
        exact hIdx r2 (List.mem_cons_of_mem r hr2) p hp
      · intro r2 hr2 p hp
        exact hNon r2 (List.mem_cons_of_mem r hr2) p hp

theorem totalContrib_zero_of_invalid (os : List OrderInfo)
    (rings : List SimRing) (k : Nat)
    (hval : (os.getD k default).valid = false)
    (hSound : ValidSound os rings) : totalContrib k rings = 0 := by
  unfold totalContrib
  apply List.sum_eq_zero
  intro x hx
  obtain ⟨r, hr, hrx⟩ := List.mem_map.mp hx
  rw [← hrx]
  unfold ringContrib
  split
  · apply List.sum_eq_zero
    intro y hy
    obtain ⟨p, hp, hpy⟩ := List.mem_map.mp hy
    rw [← hpy]
    unfold partContrib
    split
    case isTrue hpk =>
      exfalso
      have hv := hSound r hr (by assumption) p hp
      rw [hpk, hval] at hv
      exact absurd hv (by simp)
    case isFalse => rfl
  · rfl

theorem checkRings_fixpoint (orders : List OrderInfo)
    (rings : List SimRing)
    (hch : orders.any aonChanged = false)
    (hInv : FilledInv orders rings)
    (hSound : ValidSound orders rings)
    (hLe : FilledLe orders) :
    (∀ k, k < (orders.map aonStep).length →
      ((orders.map aonStep).getD k default).allOrNone = true →
      ((orders.map aonStep).getD k default).filledAmountS = 0
      ∨ ((orders.map aonStep).getD k default).filledAmountS
          = ((orders.map aonStep).getD k default).amountS)
    ∧ validateRingsAON (orders.map aonStep) = true := by
  have hmain : ∀ k, k < orders.length →
      ((orders.map aonStep).getD k default).allOrNone = true →
      ((orders.map aonStep).getD k default).filledAmountS = 0
      ∨ ((orders.map aonStep).getD k default).filledAmountS
          = ((orders.map aonStep).getD k default).amountS := by
    intro k hk haon
    rw [getD_map_of_lt aonStep orders k hk] at haon ⊢
    obtain ⟨ka, kf, ks⟩ := aonStep_keeps (orders.getD k default)
    rw [kf, ks]
    rw [ka] at haon
    have hcho : aonChanged (orders.getD k default) = false :=
      Bool.not_eq_true _ |>.mp
        (List.any_eq_false.mp hch _ (getD_mem orders k hk))
    rw [aonChanged_eq] at hcho
    by_cases hv : (orders.getD k default).valid = true
    · right
      simp only [haon, hv, Bool.true_and, Bool.and_eq_true,
        decide_eq_true_eq] at hcho
      have h1 : ¬ ((orders.getD k default).filledAmountS
          < (orders.getD k default).amountS) := by
        intro hlt
        rw [decide_eq_true hlt] at hcho
        simp at hcho
      have h2 := hLe k hk
      omega
    · left
      have hv2 : (orders.getD k default).valid = false :=
        Bool.not_eq_true _ |>.mp hv
      rw [hInv k hk]
      exact totalContrib_zero_of_invalid orders rings k hv2 hSound
  refine ⟨fun k hk => hmain k (by simpa using hk), ?_⟩
  unfold validateRingsAON
  rw [List.all_eq_true]
  intro o ho
  obtain ⟨j, hj, hjo⟩ := List.mem_iff_getElem.mp ho
  have hj2 : j < orders.length := by simpa using hj
  have hgd : (orders.map aonStep).getD j default = o := by
    rw [List.getD_eq_getElem _ _ hj, hjo]
  by_cases haon : o.allOrNone = true
  · have := hmain j hj2 (by rw [hgd]; exact haon)
    rw [hgd] at this
    rcases this with h0 | hs
    · simp [h0]
    · simp [hs]
  · simp [Bool.not_eq_true _ |>.mp haon]

theorem checkRings_aon_aux :
    ∀ (fuel : Nat) (orders : List OrderInfo) (rings : List SimRing),
      countValid orders ≤ fuel →
      IdxWf orders rings → FilledInv orders rings →
      ValidSound orders rings → ContribNonneg rings → FilledLe orders →
      (∀ k, k < (checkRingsAux orders rings).1.1.length →
        ((checkRingsAux orders rings).1.1.getD k default).allOrNone = true →
        ((checkRingsAux orders rings).1.1.getD k default).filledAmountS = 0
        ∨ ((checkRingsAux orders rings).1.1.getD k default).filledAmountS
            = ((checkRingsAux orders rings).1.1.getD k default).amountS)
      ∧ validateRingsAON (checkRingsAux orders rings).1.1 = true := by
  intro fuel
  induction fuel with
  | zero =>
    intro orders rings hf hIdx hInv hSound hNon hLe
    have h0 : countValid orders = 0 := Nat.le_zero.mp hf
    have hch := aonPass_unchanged_of_no_valid orders h0
    rw [checkRingsAux, dif_neg (by simp [aonPass, hch])]
    simp only [aonPass]
    exact checkRings_fixpoint orders rings hch hInv hSound hLe
  | succ n ih =>
    intro orders rings hf hIdx hInv hSound hNon hLe
    by_cases hch : (aonPass orders).2 = true
    · rw [checkRingsAux, dif_pos hch]
      simp only
      have hch2 : orders.any aonChanged = true := by
        simpa [aonPass] using hch
      have hlen1 : (aonPass orders).1.length = orders.length := by
        simp [aonPass]
      have hIdx1 : IdxWf (aonPass orders).1 rings := by
        intro r hr p hp
        rw [hlen1]
        exact hIdx r hr p hp
      have hInv1 : FilledInv (aonPass orders).1 rings := by
        intro k hk
        rw [hlen1] at hk
        simp only [aonPass]
        rw [getD_map_of_lt aonStep orders k hk,
          (aonStep_keeps (orders.getD k default)).2.1]
        exact hInv k hk
      have hLe1 : FilledLe (aonPass orders).1 := by
        intro k hk
        rw [hlen1] at hk
        simp only [aonPass]
        rw [getD_map_of_lt aonStep orders k hk,
          (aonStep_keeps (orders.getD k default)).2.1,
          (aonStep_keeps (orders.getD k default)).2.2]
        exact hLe k hk
      have hcnt : countValid
          (reevaluateRings (aonPass orders).1 rings).1 ≤ n := by
        rw [reevaluateRings_countValid]
        have := countValid_aonStep_lt orders hch2
        simp only [aonPass]
        omega
      have hInv2 : FilledInv (reevaluateRings (aonPass orders).1 rings).1
          (reevaluateRings (aonPass orders).1 rings).2 := by
        intro k hk
        have := reevaluateRings_inv_aux rings (aonPass orders).1
          (fun _ => 0) hIdx1 (by intro j hj; rw [hInv1 j hj]; simp) k hk
        rw [this]
        simp
      exact ih (reevaluateRings (aonPass orders).1 rings).1
        (reevaluateRings (aonPass orders).1 rings).2 hcnt
        (reevaluateRings_idxwf rings _ hIdx1) hInv2
        (reevaluateRings_sound rings _)
        (reevaluateRings_contribNonneg rings _ hNon)
        (reevaluateRings_filledLe rings _ hIdx1 hNon hLe1)
    · rw [checkRingsAux, dif_neg hch]
      have hch2 : orders.any aonChanged = false := by
        simpa [aonPass] using hch
      simp only [aonPass]
      exact checkRings_fixpoint orders rings hch2 hInv hSound hLe

end ProtocolSimulator

/-- Claim C4 (confirmed): for the state the adjustment phase produces from
a batch whose orders enter unfilled — every order's `filledAmountS` is the
sum of the contributions of the currently valid rings, valid rings
reference only valid orders, contributions are nonnegative and no order is
overfilled — the all-or-none fixed point `checkRings` ends with every
`allOrNone` order either zero-filled or completely filled, and the
all-or-none assertion of `validateRings` passes.  (The payment phase never
writes `filledAmountS`, so the property persists through `doPayments` and
`validateRings`.) -/
theorem checkRings_allOrNone_globality (orders : List OrderInfo)
    (rings : List ProtocolSimulator.SimRing)
    (hIdx : ProtocolSimulator.IdxWf orders rings)
    (hInv : ProtocolSimulator.FilledInv orders rings)
    (hSound : ProtocolSimulator.ValidSound orders rings)
    (hNon : ProtocolSimulator.ContribNonneg rings)
    (hLe : ProtocolSimulator.FilledLe orders) :
    (∀ k, k < (ProtocolSimulator.checkRings orders rings).1.length →
      ((ProtocolSimulator.checkRings orders rings).1.getD k
        default).allOrNone = true →
      ((ProtocolSimulator.checkRings orders rings).1.getD k
        default).filledAmountS = 0
      ∨ ((ProtocolSimulator.checkRings orders rings).1.getD k
          default).filledAmountS
        = ((ProtocolSimulator.checkRings orders rings).1.getD k
            default).amountS)
    ∧ ProtocolSimulator.validateRingsAON
        (ProtocolSimulator.checkRings orders rings).1 = true :=
  ProtocolSimulator.checkRings_aon_aux (countValid orders) orders rings
    (Nat.le_refl _) hIdx hInv hSound hNon hLe

/-- Claim C4 witness: one all-or-none order completely filled (5 of 5) by a
single valid ring — after `checkRings` it is still completely filled and
the `validateRings` all-or-none assertion passes. -/
theorem checkRings_allOrNone_globality_witness :
    (∀ k, k < (ProtocolSimulator.checkRings
        [{ allOrNone := true, valid := true, filledAmountS := 5,
           amountS := 5 }]
        [{ parts := [{ orderIdx := 0, fillAmountS := 5, splitS := 0 }],
           valid := true }]).1.length →
      ((ProtocolSimulator.checkRings
        [{ allOrNone := true, valid := true, filledAmountS := 5,
           amountS := 5 }]
        [{ parts := [{ orderIdx := 0, fillAmountS := 5, splitS := 0 }],
           valid := true }]).1.getD k default).allOrNone = true →
      ((ProtocolSimulator.checkRings
        [{ allOrNone := true, valid := true, filledAmountS := 5,
           amountS := 5 }]
        [{ parts := [{ orderIdx := 0, fillAmountS := 5, splitS := 0 }],
           valid := true }]).1.getD k default).filledAmountS = 0
      ∨ ((ProtocolSimulator.checkRings
          [{ allOrNone := true, valid := true, filledAmountS := 5,
             amountS := 5 }]
          [{ parts := [{ orderIdx := 0, fillAmountS := 5, splitS := 0 }],
             valid := true }]).1.getD k default).filledAmountS
        = ((ProtocolSimulator.checkRings
            [{ allOrNone := true, valid := true, filledAmountS := 5,
               amountS := 5 }]
            [{ parts := [{ orderIdx := 0, fillAmountS := 5, splitS := 0 }],
               valid := true }]).1.getD k default).amountS)
    ∧ ProtocolSimulator.validateRingsAON
        (ProtocolSimulator.checkRings
          [{ allOrNone := true, valid := true, filledAmountS := 5,
             amountS := 5 }]
          [{ parts := [{ orderIdx := 0, fillAmountS := 5, splitS := 0 }],
             valid := true }]).1 = true :=
  checkRings_allOrNone_globality
    [{ allOrNone := true, valid := true, filledAmountS := 5, amountS := 5 }]
    [{ parts := [{ orderIdx := 0, fillAmountS := 5, splitS := 0 }],
       valid := true }]
    (by decide) (by decide) (by decide) (by decide) (by decide)
